import Mathlib

/-!
# Server Rider VR: hazard field and health model

A shallow embedding of the gameplay core of `src/public/js/game.js`:
the per-hand update (`hand.update`), the main loop body (`update`), the
hazard-field lookup on `tunnelData`, the level builder (the initial
`parameters`, `addInfluence`, the note loop and the quantization that
produces `level.data`) and the curve lookup `lerpParam`.

JavaScript numbers are modelled by rationals (`ℚ`); typed-array bytes by
naturals. The lane comparison of `hand.update`, where rounding decides exact
ties, is also modelled in IEEE 754 double arithmetic (`toDouble`,
`laneTestDouble`). `Math.sin`, `Math.PI` and the random draws of the note loop are
inputs of the model (`Oracle`). Rendering-only state (materials, scales, shader uniforms, the
smoothed per-hand `hurt` value that is only written to `tunnelState`) is
left out: it never flows back into `inside`, `playHurt`, `health` or
`levelOver`.
-/

namespace ServerRider

/-! ## Numeric helpers used by the source -/

/-- The three.js helper `MathUtils.clamp(value, min, max)`, which is
`Math.max(min, Math.min(max, value))`. -/
def clamp {α : Type} [LinearOrder α] (value lo hi : α) : α :=
  max lo (min hi value)

/-- The three.js helper `MathUtils.lerp(x, y, t)`, which is `(1 - t) * x + t * y`. -/
def lerp (x y t : ℚ) : ℚ :=
  (1 - t) * x + t * y

/-- The function `Math.round`: nearest integer, ties towards plus infinity. -/
def round (x : ℚ) : ℤ :=
  ⌊x + 1 / 2⌋

/-- Truncation towards zero, the quotient used by the JavaScript `%`. -/
def trunc (x : ℚ) : ℤ :=
  if 0 ≤ x then ⌊x⌋ else ⌈x⌉

/-- The JavaScript remainder `x % y`: the result has the sign of the dividend. -/
def jsRem (x y : ℚ) : ℚ :=
  x - y * (trunc (x / y) : ℚ)

/-- The constant `godMode` of the source. -/
def godMode : Bool := false

/-! ## Hazard-field lookup (inlined in `hand.update`) -/

/-- The index `i = clamp(floor(handDistance), 0, 4094)`. -/
def bucketIndex (handDistance : ℚ) : ℕ :=
  (clamp ⌊handDistance⌋ 0 4094).toNat

/-- The expression `lerp(tunnelData[i * 4 + c], tunnelData[(i + 1) * 4 + c], d - i)`
for a given bucket `i`. A read outside the array is `undefined` in the source and
`none` here. -/
def segmentValue (tunnelData : Array ℕ) (c i : ℕ) (d : ℚ) : Option ℚ :=
  match tunnelData[i * 4 + c]?, tunnelData[(i + 1) * 4 + c]? with
  | some a, some b => some (lerp (a : ℚ) (b : ℚ) (d - (i : ℚ)))
  | _, _ => none

/-- The hazard-field lookup of `hand.update` for channel `c` at distance `d`. -/
def sampleTunnelData (tunnelData : Array ℕ) (c : ℕ) (d : ℚ) : Option ℚ :=
  segmentValue tunnelData c (bucketIndex d) d

/-- The angular test
`Math.abs((handAngle - centerAngle + 0.5) % 1.0 - 0.5) < centralAngle`, evaluated in
exact arithmetic. The evaluation in doubles is `laneTestDouble`; the two can differ
only when the distance on the circle is within `2^-50` of `centralAngle`. -/
def laneTest (handAngle centerAngle centralAngle : ℚ) : Bool :=
  decide (|jsRem (handAngle - centerAngle + 1 / 2) 1 - 1 / 2| < centralAngle)

/-! ## Game state, `hand.update` and `update` -/

/-- One entry of the raycaster result: hit distance and the `uv` coordinate. -/
structure Intersection where
  distance : ℚ
  uvx : ℚ
  uvy : ℚ

/-- The globals of the source that gameplay depends on, with the active level. -/
structure Game where
  levelOver : Bool
  health : ℚ
  distance : ℚ
  playHurt : Bool
  tunnelLength : ℚ
  velocity : ℚ
  tunnelData : Array ℕ

/-- The lane test of the hit branch of `hand.update` for hand `side`:
`handAngle`, `centerAngle` and `centralAngle` are computed from the first
intersection. An undefined read makes the comparison false. -/
def hitInside (g : Game) (side : ℕ) (hit : Intersection) : Bool :=
  let handDistance := hit.uvx * g.tunnelLength
  let handAngle := hit.uvy + 1 / 4
  match sampleTunnelData g.tunnelData side handDistance,
    sampleTunnelData g.tunnelData (side + 2) handDistance with
  | some a, some w => laneTest handAngle (a / 255) (w / 255)
  | _, _ => false

/-- The value of the local `inside` at the end of `hand.update`. -/
def handInside (g : Game) (side : ℕ) (intersections : List Intersection) : Bool :=
  let inside := g.levelOver || decide (g.distance < 20) ||
    decide (g.distance > g.tunnelLength - 20)
  match intersections with
  | hit :: _ => if !g.levelOver then inside || hitInside g side hit else inside
  | [] => inside

/-- The effect of `hand.update(dt)` on the globals. -/
def handUpdate (side : ℕ) (dt : ℚ) (intersections : List Intersection) (g : Game) : Game :=
  let inside := handInside g side intersections
  if g.levelOver then g
  else
    { g with
      playHurt := if !inside then true else g.playHurt
      health := min 1 (g.health + (if inside || godMode then 1 / 2 * dt else -dt)) }

/-- What one call of `update` reads from its collaborators: the clock delta, the
playback state and time, and the raycast result of each hand. -/
structure Frame where
  dt : ℚ
  isPlaying : Bool
  currentTime : ℚ
  intersections0 : List Intersection
  intersections1 : List Intersection

/-- The branch taken at the end of `update`. -/
inductive Outcome where
  | idle
  | running
  | completed
  | failed
  deriving DecidableEq, Repr

/-- The state just before the hands are updated: the distance follows the
playback clock and `playHurt` is cleared. -/
def beforeHands (g : Game) (f : Frame) : Game :=
  { g with
    distance := if f.isPlaying then f.currentTime * g.velocity else g.distance
    playHurt := false }

/-- The state after `hands.forEach(hand => hand.update(dt))`. -/
def afterHands (g : Game) (f : Frame) : Game :=
  handUpdate 1 f.dt f.intersections1 (handUpdate 0 f.dt f.intersections0 (beforeHands g f))

/-- One call of `update`. Starting a level happens in a timer callback and is not
part of the tick. -/
def update (g : Game) (f : Frame) : Game × Outcome :=
  let h := afterHands g f
  if h.levelOver then (h, Outcome.idle)
  else if !f.isPlaying then ({ h with levelOver := true }, Outcome.completed)
  else if h.health ≤ 0 then ({ h with levelOver := true }, Outcome.failed)
  else (h, Outcome.running)

/-- The game state after a sequence of ticks. -/
def run (g : Game) (frames : List Frame) : Game :=
  frames.foldl (fun s f => (update s f).1) g

/-- The outcomes of a sequence of ticks, in order. -/
def outcomes : Game → List Frame → List Outcome
  | _, [] => []
  | g, f :: fs => (update g f).2 :: outcomes (update g f).1 fs

/-! ## The health rule and the angular distance as the specification words them -/

/-- The per-tick health rule of the specification:
`clamp(health + (isHurtThisFrame ? -dt : +0.5 * dt), 0, 1)`. -/
def specHealthStep (health dt : ℚ) (isHurtThisFrame : Bool) : ℚ :=
  clamp (health + (if isHurtThisFrame then -dt else 1 / 2 * dt)) 0 1

/-- The distance between two angles on the circle of circumference 1 (angles
are turn fractions): a value in `[0, 1/2]`. -/
def wrappedDistance (a b : ℚ) : ℚ :=
  min (Int.fract (a - b)) (1 - Int.fract (a - b))

/-! ## The builder: `addInfluence` and the quantization of `level.data` -/

/-- The amount added at bucket `i` by `addInfluence`:
`decay ? lerp(strength, 0, (i - d0) / (d1 - d0)) : strength`. -/
def influenceAt (d0 d1 strength : ℚ) (decay : Bool) (i : ℕ) : ℚ :=
  if decay then lerp strength 0 (((i : ℚ) - d0) / (d1 - d0)) else strength

/-- The body of the loop of `addInfluence` at bucket `i`. -/
def addInfluenceStep (d0 d1 strength : ℚ) (param : ℕ) (decay : Bool)
    (parameters : Array ℚ) (i : ℕ) : Array ℚ :=
  parameters.modify (i * 4 + param)
    (fun old => clamp (old + influenceAt d0 d1 strength decay i) (-1) 1)

/-- The closure `addInfluence(time, duration, strength, param, decay)` of the level
builder; `songDuration` is `sequencer.duration` and `tunnelLength` is
`tunnel.length`. The loop runs `i` from `max(ceil(d0), 0)` up to, and excluding,
`min(ceil(d1), 4096)`. -/
def addInfluence (songDuration tunnelLength : ℚ) (time duration strength : ℚ)
    (param : ℕ) (decay : Bool) (parameters : Array ℚ) : Array ℚ :=
  let d0 := time / songDuration * tunnelLength
  let d1 := (time + duration) / songDuration * tunnelLength
  let first := (max ⌈d0⌉ 0).toNat
  let last := (min ⌈d1⌉ 4096).toNat
  (List.range' first (last - first)).foldl
    (addInfluenceStep d0 d1 strength param decay) parameters

/-- The value before rounding in the quantization of entry `i`, where a boolean
factor of the source is 1 or 0. -/
def rawChannelValue (minWidth : ℚ) (i : ℕ) (v : ℚ) : ℚ :=
  (if i % 4 = 0 then 1 else 0) * (64 + clamp v (-7 / 10) (7 / 10) * 64) +
  (if i % 4 = 1 then 1 else 0) * (192 - clamp v (-7 / 10) (7 / 10) * 64) +
  (if i % 4 > 1 then 1 else 0) * clamp (v * 64) minWidth 64

/-- One entry of `level.data`: `clamp(round(raw), 0, 255)`. -/
def quantize (minWidth : ℚ) (i : ℕ) (v : ℚ) : ℤ :=
  clamp (round (rawChannelValue minWidth i v)) 0 255

/-- The array `data` of a level: `parameters.map((v, i) => ...)`. -/
def levelData (minWidth : ℚ) (parameters : Array ℚ) : Array ℤ :=
  parameters.mapIdx (fun i v => quantize minWidth i v)

/-! ## Concrete inputs used to exercise the theorems -/

/-- A hazard field whose bytes all equal `b`. -/
def flatData (b : ℕ) : Array ℕ :=
  mkArray (4096 * 4) b

/-- A hazard field that is zero except for the byte 255 at channel 0 of the first
bucket (index 0) and of the last bucket (index `4 * 4095`). -/
def spikeData : Array ℕ :=
  ((mkArray (4096 * 4) 0).modify 0 (fun _ => 255)).modify (4 * 4095) (fun _ => 255)

/-- An accumulated parameter array that is zero everywhere. -/
def zeroParameters : Array ℚ :=
  mkArray (4096 * 4) 0

/-- An active attempt in the middle of a 100 metre tunnel, closed lanes. -/
def midGame (health : ℚ) : Game :=
  { levelOver := false, health := health, distance := 50, playHurt := false,
    tunnelLength := 100, velocity := 10, tunnelData := flatData 0 }

/-- A hit at the middle of the tunnel, at ring angle 0. -/
def midHit : Intersection :=
  { distance := 1, uvx := 1 / 2, uvy := 0 }

/-- A frame at playback time `t` with the given hits. -/
def frameAt (dt t : ℚ) (hits0 hits1 : List Intersection) : Frame :=
  { dt := dt, isPlaying := true, currentTime := t,
    intersections0 := hits0, intersections1 := hits1 }

/-- A hazard field whose angle channels (0 and 1) all hold `center` and whose width
channels (2 and 3) all hold `width`. -/
def laneData (center width : ℕ) : Array ℕ :=
  Array.ofFn (fun (k : Fin (4096 * 4)) => if k.val % 4 < 2 then center else width)

/-- An active attempt in the middle of a 100 metre tunnel over `laneData`. -/
def laneGame (center width : ℕ) : Game :=
  { levelOver := false, health := 1, distance := 50, playHurt := false,
    tunnelLength := 100, velocity := 10, tunnelData := laneData center width }

/-- An active attempt 5 metres into a 100 metre tunnel whose lanes are all closed. -/
def graceGame : Game :=
  { levelOver := false, health := 1 / 2, distance := 5, playHurt := false,
    tunnelLength := 100, velocity := 10, tunnelData := flatData 0 }

/-- A hit at the middle of the tunnel, at ring angle 1/2. -/
def wallHit : Intersection :=
  { distance := 1, uvx := 1 / 2, uvy := 1 / 2 }

/-- An unsafe hand on every tick of a run: on each tick, as the code judges it, at
least one hand ends `hand.update` with `inside` false. -/
def everyTickHurts : Game → List Frame → Bool
  | _, [] => true
  | g, f :: fs =>
    (!handInside (beforeHands g f) 0 f.intersections0 ||
      !handInside (beforeHands g f) 1 f.intersections1) &&
    everyTickHurts (update g f).1 fs

/-- An unsafe hand on every tick of a run on which the attempt is still active. -/
def hurtWhileActive : Game → List Frame → Bool
  | _, [] => true
  | g, f :: fs =>
    (g.levelOver || !handInside (beforeHands g f) 0 f.intersections0 ||
      !handInside (beforeHands g f) 1 f.intersections1) &&
    hurtWhileActive (update g f).1 fs

/-- 119 frames at 60 frames per second in which hand 0 points at the wall and hand 1
into its lane (over `laneData 64 32`), playback running from second 3. -/
def oneHandFrames : List Frame :=
  (List.range 119).map (fun (k : ℕ) => frameAt (1 / 60) (3 + (k : ℚ) / 60) [wallHit] [midHit])

/-- The frames `oneHandFrames` followed by one frame with both hands at the wall:
120 frames in all. -/
def hurtFrames : List Frame :=
  oneHandFrames ++ [frameAt (1 / 60) (3 + 119 / 60) [wallHit] [wallHit]]

/-! ## The builder: initial parameters and the note loop -/

/-- A note of a track: `{ time, duration }`, in seconds. -/
structure Note where
  time : ℚ
  duration : ℚ

/-- The entry `level.influences[t]` of a track that has one:
`[rotation, size, hand A phase offset, hand B phase offset]`. -/
structure Influence where
  rotation : ℚ
  size : ℚ
  phaseA : ℚ
  phaseB : ℚ

/-- The entry `influence[2 + side]`. -/
def Influence.phase (influence : Influence) (side : ℕ) : ℚ :=
  if side = 0 then influence.phaseA else influence.phaseB

/-- What the note loop takes from outside the rationals: the values of `Math.sin`
and `Math.PI`, and the outcome of the draw `rand(0, 1) < 0.5` made for note `k` of
hand `side` of track `t`. -/
structure Oracle where
  sin : ℚ → ℚ
  PI : ℚ
  flip : ℕ → ℕ → ℕ → Bool

/-- The array `parameters` before any note is added:
`map(4096 * 4, i => (i % 4 > 1) * max(2 - i / 32, defaultWidth / 64))`. -/
def initialParameters (defaultWidth : ℚ) : Array ℚ :=
  Array.ofFn (fun (i : Fin (4096 * 4)) =>
    (if i.val % 4 > 1 then 1 else 0) * max (2 - (i.val : ℚ) / 32) (defaultWidth / 64))

/-- The body of `track.notes.forEach` for note `k` of hand `side` of track `t`: the
four calls of `addInfluence`. -/
def noteStep (songDuration tunnelLength : ℚ) (influence : Influence) (o : Oracle)
    (t side k : ℕ) (note : Note) (parameters : Array ℚ) : Array ℚ :=
  let handInfluence :=
    o.sin (influence.phase side + o.sin (note.time / 5 * o.PI * 2)) / 2 + 1 / 2
  let rotation := influence.rotation * handInfluence *
    (1 - 2 * (if o.flip t side k then 1 else 0))
  let size := influence.size * handInfluence
  addInfluence songDuration tunnelLength (note.time + note.duration) 2 size (2 + side) true
    (addInfluence songDuration tunnelLength note.time note.duration size (2 + side) false
      (addInfluence songDuration tunnelLength (note.time + note.duration) 2 rotation side true
        (addInfluence songDuration tunnelLength note.time note.duration rotation side false
          parameters)))

/-- The loop `track.notes.forEach` for one hand. -/
def trackSide (songDuration tunnelLength : ℚ) (influence : Influence) (o : Oracle)
    (t side : ℕ) (notes : List Note) (parameters : Array ℚ) : Array ℚ :=
  notes.enum.foldl
    (fun p kn => noteStep songDuration tunnelLength influence o t side kn.1 kn.2 p) parameters

/-- The body of `sequencer.tracks.forEach` for track `t`: nothing for a `null`
influence, otherwise hand 0 and then hand 1. -/
def trackStep (songDuration tunnelLength : ℚ) (influence : Option Influence) (o : Oracle)
    (t : ℕ) (notes : List Note) (parameters : Array ℚ) : Array ℚ :=
  match influence with
  | none => parameters
  | some inf =>
    trackSide songDuration tunnelLength inf o t 1 notes
      (trackSide songDuration tunnelLength inf o t 0 notes parameters)

/-- The loop `sequencer.tracks.forEach`; `influences t` is `level.influences[t]`. -/
def buildTracks (songDuration tunnelLength : ℚ) (tracks : List (List Note))
    (influences : ℕ → Option Influence) (o : Oracle) (parameters : Array ℚ) : Array ℚ :=
  tracks.enum.foldl
    (fun p tn => trackStep songDuration tunnelLength (influences tn.1) o tn.1 tn.2 p)
    parameters

/-- The array `parameters` after all tracks have been added to the initial array. -/
def buildParameters (songDuration tunnelLength defaultWidth : ℚ) (tracks : List (List Note))
    (influences : ℕ → Option Influence) (o : Oracle) : Array ℚ :=
  buildTracks songDuration tunnelLength tracks influences o (initialParameters defaultWidth)

/-- The scenario of the specification: a song of 10 seconds with one track holding the
note `{ time: 0, duration: 1 }`, a curve of 100 metres and the influence
`[1, 1, 0, 0]`. -/
def scenarioParameters (defaultWidth : ℚ) (o : Oracle) : Array ℚ :=
  buildParameters 10 100 defaultWidth [[{ time := 0, duration := 1 }]]
    (fun _ => some { rotation := 1, size := 1, phaseA := 0, phaseB := 0 }) o

/-- An oracle that is exact where the scenario evaluates it (`sin 0 = 0`), with every
rotation draw equal to `flip`. -/
def scenarioOracle (flip : Bool) : Oracle :=
  { sin := fun x => x, PI := 355 / 113, flip := fun _ _ _ => flip }

/-! ## The quantization as the specification words it -/

/-- The raw channel value of the specification, by channel: `64 + clamp(v, -0.7, 0.7) * 64`
for channel 0, `192 - clamp(v, -0.7, 0.7) * 64` for channel 1 and
`clamp(v * 64, minWidth, 64)` for the width channels 2 and 3. -/
def specRawChannelValue (minWidth : ℚ) (channel : ℕ) (v : ℚ) : ℚ :=
  if channel = 0 then 64 + clamp v (-7 / 10) (7 / 10) * 64
  else if channel = 1 then 192 - clamp v (-7 / 10) (7 / 10) * 64
  else clamp (v * 64) minWidth 64

/-- The final byte of the specification: `round(clamp(rawChannelValue, 0, 255))`. -/
def specByte (minWidth : ℚ) (i : ℕ) (v : ℚ) : ℤ :=
  round (clamp (specRawChannelValue minWidth (i % 4) v) 0 255)

/-! ## The curve lookup `lerpParam` of `createTunnel` -/

/-- A three.js `Vector3`. -/
structure Vector3 where
  x : ℚ
  y : ℚ
  z : ℚ
  deriving DecidableEq

/-- The three.js method `a.lerp(v, alpha)`: each component moves by
`(v - a) * alpha`. -/
def Vector3.lerp (a v : Vector3) (alpha : ℚ) : Vector3 :=
  { x := a.x + (v.x - a.x) * alpha
    y := a.y + (v.y - a.y) * alpha
    z := a.z + (v.z - a.z) * alpha }

/-- The closure `lerpParam(param, u, target)` of `createTunnel`, with `p = tunnel[param]`
the per-sample array, `length = curve.getLength()` and `segments = floor(length)`:
`t = u / length * segments`, `i = clamp(floor(t), 0, segments - 2)` and the result is
`p[i].lerp(p[i + 1], t - i)`. A read outside the array is `none`. -/
def lerpParam (length : ℚ) (p : Array Vector3) (u : ℚ) : Option Vector3 :=
  let segments : ℤ := ⌊length⌋
  let t := u / length * (segments : ℚ)
  let i := (clamp ⌊t⌋ 0 (segments - 2)).toNat
  match p[i]?, p[i + 1]? with
  | some a, some b => some (a.lerp b (t - (i : ℚ)))
  | _, _ => none

/-- Three samples of a curve of length 5/2 (two segments) that turns a corner. -/
def cornerSamples : Array Vector3 :=
  #[{ x := 0, y := 0, z := 0 }, { x := 1, y := 0, z := 0 }, { x := 1, y := 1, z := 0 }]

/-! ## The lane comparison in double arithmetic -/

/-- Rounding to the nearest integer, ties to the even one. -/
def roundHalfEven (y : ℚ) : ℤ :=
  if y - (⌊y⌋ : ℚ) < 1 / 2 then ⌊y⌋
  else if 1 / 2 < y - (⌊y⌋ : ℚ) then ⌊y⌋ + 1
  else if ⌊y⌋ % 2 = 0 then ⌊y⌋ else ⌊y⌋ + 1

/-- The IEEE 754 binary64 number nearest to `x` (53 significant bits, round to nearest,
ties to even): the result of a JavaScript arithmetic operation whose exact result is
`x`. The exponent range is not bounded here; the values of the lane comparison are far
from overflow, and a difference of two doubles that would be subnormal is exact in
both. -/
def toDouble (x : ℚ) : ℚ :=
  if x = 0 then 0
  else (roundHalfEven (x / 2 ^ (Int.log 2 |x| - 52)) : ℚ) * 2 ^ (Int.log 2 |x| - 52)

/-- The variable `handAngle = uv.y + 1 / 4` of `hand.update`, in doubles. -/
def handAngleDouble (uvy : ℚ) : ℚ :=
  toDouble (uvy + 1 / 4)

/-- The value `Math.abs((handAngle - centerAngle + 0.5) % 1.0 - 0.5)` in doubles: the
subtraction, the addition and the last subtraction round; the remainder `%` and
`Math.abs` are exact on doubles. -/
def laneValueDouble (handAngle centerAngle : ℚ) : ℚ :=
  |toDouble (jsRem (toDouble (toDouble (handAngle - centerAngle) + 1 / 2)) 1 - 1 / 2)|

/-- The angular test of `hand.update` in doubles. Outside the grace window, for an
active hand with a hit, this is the value of `inside`. -/
def laneTestDouble (handAngle centerAngle centralAngle : ℚ) : Bool :=
  decide (laneValueDouble handAngle centerAngle < centralAngle)

/-- The double nearest to `19 / 255`: the angle, or the half width, sampled from the
byte 19. -/
def tieAngle19 : ℚ := 5368997202826003 / 2 ^ 56

/-- The double nearest to `20 / 255`: the angle, or the half width, sampled from the
byte 20. -/
def tieAngle20 : ℚ := 1412894000743685 / 2 ^ 54

/-- The double nearest to `33 / 255`: the angle, or the half width, sampled from the
byte 33. -/
def tieAngle33 : ℚ := 4662550202454161 / 2 ^ 55

/-! # Theorems -/

/-! ## Basic facts about the helpers -/

theorem clamp_le_hi {α : Type} [LinearOrder α] (v lo hi : α) (h : lo ≤ hi) :
    clamp v lo hi ≤ hi := by
  unfold clamp
  exact max_le h (min_le_left _ _)

theorem lo_le_clamp {α : Type} [LinearOrder α] (v lo hi : α) : lo ≤ clamp v lo hi := by
  unfold clamp
  exact le_max_left _ _

theorem lerp_same (a t : ℚ) : lerp a a t = a := by
  unfold lerp
  ring

theorem lerp_zero (a b : ℚ) : lerp a b 0 = a := by
  unfold lerp
  ring

theorem lerp_one (a b : ℚ) : lerp a b 1 = b := by
  unfold lerp
  ring

theorem bucketIndex_le (d : ℚ) : bucketIndex d ≤ 4094 := by
  unfold bucketIndex
  have h : clamp ⌊d⌋ 0 4094 ≤ 4094 := clamp_le_hi _ _ _ (by norm_num)
  omega

theorem bucketIndex_natCast (k : ℕ) (hk : k ≤ 4094) : bucketIndex (k : ℚ) = k := by
  unfold bucketIndex clamp
  have h : ⌊(k : ℚ)⌋ = (k : ℤ) := by exact_mod_cast Int.floor_natCast (k : ℕ)
  rw [h]
  omega

theorem bucketIndex_of_neg (d : ℚ) (hd : d < 0) : bucketIndex d = 0 := by
  unfold bucketIndex clamp
  have h : ⌊d⌋ < 0 := by
    rw [Int.floor_lt]
    exact_mod_cast hd
  omega

theorem bucketIndex_of_large (d : ℚ) (hd : 4094 ≤ d) : bucketIndex d = 4094 := by
  unfold bucketIndex clamp
  have h : (4094 : ℤ) ≤ ⌊d⌋ := by
    rw [Int.le_floor]
    exact_mod_cast hd
  omega

theorem sample_flatData (b c : ℕ) (d : ℚ) (hc : c < 4) :
    sampleTunnelData (flatData b) c d = some (b : ℚ) := by
  have hi := bucketIndex_le d
  have h1 : bucketIndex d * 4 + c < 4096 * 4 := by omega
  have h2 : (bucketIndex d + 1) * 4 + c < 4096 * 4 := by omega
  simp [sampleTunnelData, segmentValue, flatData, Array.getElem?_mkArray, h1, h2, lerp_same]

theorem laneTest_zero_width (a c : ℚ) : laneTest a c 0 = false := by
  simp [laneTest]

/-! ## Basic facts about `hand.update` and `update` -/

theorem handUpdate_levelOver (side : ℕ) (dt : ℚ) (hits : List Intersection) (g : Game) :
    (handUpdate side dt hits g).levelOver = g.levelOver := by
  unfold handUpdate
  split <;> rfl

theorem handUpdate_of_levelOver (side : ℕ) (dt : ℚ) (hits : List Intersection) (g : Game)
    (h : g.levelOver = true) : handUpdate side dt hits g = g := by
  simp [handUpdate, h]

theorem handUpdate_health (side : ℕ) (dt : ℚ) (hits : List Intersection) (g : Game)
    (h : g.levelOver = false) :
    (handUpdate side dt hits g).health =
      min 1 (g.health + (if handInside g side hits then 1 / 2 * dt else -dt)) := by
  simp [handUpdate, h, godMode]

theorem handUpdate_playHurt (side : ℕ) (dt : ℚ) (hits : List Intersection) (g : Game)
    (h : g.levelOver = false) :
    (handUpdate side dt hits g).playHurt = (!handInside g side hits || g.playHurt) := by
  simp only [handUpdate, h]
  cases handInside g side hits <;> simp

theorem handUpdate_health_le (side : ℕ) (dt : ℚ) (hits : List Intersection) (g : Game)
    (h : g.health ≤ 1) : (handUpdate side dt hits g).health ≤ 1 := by
  unfold handUpdate
  split
  · exact h
  · exact min_le_left _ _

theorem handUpdate_health_ge (side : ℕ) (dt : ℚ) (hits : List Intersection) (g : Game)
    (h : g.health ≤ 1) (hdt : 0 ≤ dt) : g.health - dt ≤ (handUpdate side dt hits g).health := by
  unfold handUpdate
  split
  · simp only; linarith
  · simp only [le_min_iff]
    split <;> constructor <;> linarith

theorem handInside_hit_flat_zero (g : Game) (side : ℕ) (hit : Intersection) (hs : side < 2)
    (hd : g.tunnelData = flatData 0) (hover : g.levelOver = false)
    (h1 : 20 ≤ g.distance) (h2 : g.distance ≤ g.tunnelLength - 20) :
    handInside g side (hit :: []) = false := by
  have hw : sampleTunnelData (flatData 0) (side + 2) (hit.uvx * g.tunnelLength) = some ((0 : ℕ) : ℚ) :=
    sample_flatData 0 (side + 2) _ (by omega)
  have hc : sampleTunnelData (flatData 0) side (hit.uvx * g.tunnelLength) = some ((0 : ℕ) : ℚ) :=
    sample_flatData 0 side _ (by omega)
  simp [handInside, hitInside, hover, hd, hw, hc, laneTest_zero_width, h1, h2]

theorem afterHands_levelOver (g : Game) (f : Frame) :
    (afterHands g f).levelOver = g.levelOver := by
  simp [afterHands, handUpdate_levelOver, beforeHands]

theorem afterHands_of_levelOver (g : Game) (f : Frame) (h : g.levelOver = true) :
    (afterHands g f).health = g.health := by
  have hb : (beforeHands g f).levelOver = true := by simpa [beforeHands] using h
  unfold afterHands
  rw [handUpdate_of_levelOver 0 _ _ _ hb, handUpdate_of_levelOver 1 _ _ _ hb]
  rfl

theorem handInside_handUpdate (side side2 : ℕ) (dt : ℚ) (hits hits2 : List Intersection)
    (g : Game) :
    handInside (handUpdate side dt hits g) side2 hits2 = handInside g side2 hits2 := by
  unfold handUpdate
  split
  · rfl
  · rfl

/-- The health after both hands have been updated in an active tick: the rule of
`hand.update` applied for hand 0 and then for hand 1. -/
theorem afterHands_health (g : Game) (f : Frame) (h : g.levelOver = false) :
    (afterHands g f).health =
      min 1 (min 1 (g.health +
          (if handInside (beforeHands g f) 0 f.intersections0 then 1 / 2 * f.dt else -f.dt)) +
        (if handInside (beforeHands g f) 1 f.intersections1 then 1 / 2 * f.dt else -f.dt)) := by
  have hb : (beforeHands g f).levelOver = false := by simpa [beforeHands] using h
  unfold afterHands
  rw [handUpdate_health _ _ _ _ (by rw [handUpdate_levelOver]; exact hb),
    handUpdate_health _ _ _ _ hb, handInside_handUpdate]
  rfl

/-- The hurt flag after both hands have been updated in an active tick. -/
theorem afterHands_playHurt (g : Game) (f : Frame) (h : g.levelOver = false) :
    (afterHands g f).playHurt =
      (!handInside (beforeHands g f) 0 f.intersections0 ||
        !handInside (beforeHands g f) 1 f.intersections1) := by
  have hb : (beforeHands g f).levelOver = false := by simpa [beforeHands] using h
  unfold afterHands
  rw [handUpdate_playHurt _ _ _ _ (by rw [handUpdate_levelOver]; exact hb),
    handUpdate_playHurt _ _ _ _ hb, handInside_handUpdate]
  simp [beforeHands, Bool.or_comm]

/-- In the middle of the 100 metre tunnel with closed lanes, a hand that hits the
wall is outside. -/
theorem handInside_midGame (health dt t : ℚ) (side : ℕ) (hs : side < 2)
    (hits0 hits1 : List Intersection) (ht : t = 5) :
    handInside (beforeHands (midGame health) (frameAt dt t hits0 hits1)) side
      (midHit :: []) = false := by
  apply handInside_hit_flat_zero _ side midHit hs
  · rfl
  · rfl
  · simp [beforeHands, midGame, frameAt, ht]; norm_num
  · simp [beforeHands, midGame, frameAt, ht]; norm_num

theorem afterHands_health_le (g : Game) (f : Frame) (h : g.health ≤ 1) :
    (afterHands g f).health ≤ 1 := by
  unfold afterHands
  apply handUpdate_health_le
  apply handUpdate_health_le
  simpa [beforeHands] using h

theorem afterHands_health_ge (g : Game) (f : Frame) (h : g.health ≤ 1) (hdt : 0 ≤ f.dt) :
    g.health - 2 * f.dt ≤ (afterHands g f).health := by
  have hb : (beforeHands g f).health ≤ 1 := by simpa [beforeHands] using h
  have e0 := handUpdate_health_ge 0 f.dt f.intersections0 (beforeHands g f) hb hdt
  have l0 := handUpdate_health_le 0 f.dt f.intersections0 (beforeHands g f) hb
  have e1 := handUpdate_health_ge 1 f.dt f.intersections1 _ l0 hdt
  have hbh : (beforeHands g f).health = g.health := by simp [beforeHands]
  unfold afterHands
  linarith

theorem update_health (g : Game) (f : Frame) :
    (update g f).1.health = (afterHands g f).health := by
  unfold update
  simp only
  split
  · rfl
  · split
    · rfl
    · split <;> rfl

theorem update_levelOver_false (g : Game) (f : Frame)
    (h : (update g f).1.levelOver = false) :
    g.levelOver = false ∧ 0 < (update g f).1.health := by
  unfold update at h ⊢
  simp only at h ⊢
  split at h
  · rename_i h1
    rw [h1] at h
    exact absurd h (by simp)
  · split at h
    · exact absurd h (by simp)
    · split at h
      · exact absurd h (by simp)
      · rename_i h1 h2 h3
        rw [if_neg h1, if_neg h2, if_neg h3]
        refine ⟨?_, lt_of_not_ge h3⟩
        rw [afterHands_levelOver] at h1
        simpa using h1

/-- The invariant carried along a run: health never exceeds 1, is positive while
the attempt is active, and has not dropped by more than two clock deltas below 0. -/
theorem update_preserves_bounds (g : Game) (f : Frame) (D : ℚ)
    (hdt : 0 ≤ f.dt) (hD : f.dt ≤ D)
    (hle : g.health ≤ 1) (hpos : g.levelOver = false → 0 < g.health)
    (hlow : -(2 * D) < g.health) :
    (update g f).1.health ≤ 1 ∧
      ((update g f).1.levelOver = false → 0 < (update g f).1.health) ∧
      -(2 * D) < (update g f).1.health := by
  refine ⟨?_, fun h => (update_levelOver_false g f h).2, ?_⟩
  · rw [update_health]
    exact afterHands_health_le g f hle
  · rw [update_health]
    cases hover : g.levelOver
    · have := afterHands_health_ge g f hle hdt
      have := hpos hover
      linarith
    · rw [afterHands_of_levelOver g f hover]
      exact hlow

theorem run_preserves_bounds (frames : List Frame) (D : ℚ) :
    ∀ g : Game, (∀ f ∈ frames, 0 ≤ f.dt ∧ f.dt ≤ D) →
      g.health ≤ 1 → (g.levelOver = false → 0 < g.health) → -(2 * D) < g.health →
      (run g frames).health ≤ 1 ∧
        ((run g frames).levelOver = false → 0 < (run g frames).health) ∧
        -(2 * D) < (run g frames).health := by
  induction frames with
  | nil => intro g _ h1 h2 h3; exact ⟨h1, h2, h3⟩
  | cons f fs ih =>
    intro g hf h1 h2 h3
    have hfd := hf f (List.mem_cons_self f fs)
    obtain ⟨a, b, c⟩ := update_preserves_bounds g f D hfd.1 hfd.2 h1 h2 h3
    exact ih (update g f).1 (fun x hx => hf x (List.mem_cons_of_mem f hx)) a b c

/-! ## C1: health bounds -/

/-- Claim C1, counterexample: from health 1, one active tick of one second with
both hands hitting the wall outside their (closed) lanes leaves health at -1, so
the lower bound 0 of the claim fails. -/
theorem c1_health_negative_example :
    (run (midGame 1) [frameAt 1 5 [midHit] [midHit]]).health = -1 ∧
      ¬ (0 ≤ (run (midGame 1) [frameAt 1 5 [midHit] [midHit]]).health ∧
        (run (midGame 1) [frameAt 1 5 [midHit] [midHit]]).health ≤ 1) := by
  have e : (run (midGame 1) [frameAt 1 5 [midHit] [midHit]]).health = -1 := by
    simp only [run, List.foldl, update_health]
    rw [afterHands_health _ _ rfl]
    have h0 := handInside_midGame 1 1 5 0 (by norm_num) [midHit] [midHit] rfl
    have h1 := handInside_midGame 1 1 5 1 (by norm_num) [midHit] [midHit] rfl
    simp only [frameAt] at h0 h1 ⊢
    rw [h0, h1]
    norm_num [midGame]
  rw [e]
  norm_num

/-- Claim C1, as amended: starting from health 1, after any sequence of ticks with
clock deltas in `[0, D]`, health is at most 1, it is positive as long as the
attempt is active (`levelOver` false), and it is above `-2 * D`: the code has an
upper clamp only, and the tick that brings health to 0 or below ends the attempt. -/
theorem c1_health_bounds (g : Game) (frames : List Frame) (D : ℚ)
    (hstart : g.health = 1) (hdt : ∀ f ∈ frames, 0 ≤ f.dt ∧ f.dt ≤ D) (hD : 0 ≤ D) :
    (run g frames).health ≤ 1 ∧
      ((run g frames).levelOver = false → 0 < (run g frames).health) ∧
      -(2 * D) < (run g frames).health :=
  run_preserves_bounds frames D g hdt (by rw [hstart])
    (fun _ => by rw [hstart]; norm_num) (by rw [hstart]; linarith)

/-- Claim C1, the amended bounds at a concrete run: one tick of one second with both
hands outside their lanes. -/
theorem c1_health_bounds_witness :
    (midGame 1).health = 1 ∧
      (run (midGame 1) [frameAt 1 5 [midHit] [midHit]]).health ≤ 1 ∧
      -(2 * 1) < (run (midGame 1) [frameAt 1 5 [midHit] [midHit]]).health :=
  ⟨rfl,
    (c1_health_bounds (midGame 1) [frameAt 1 5 [midHit] [midHit]] 1 rfl
      (by simp [frameAt]) (by norm_num)).1,
    (c1_health_bounds (midGame 1) [frameAt 1 5 [midHit] [midHit]] 1 rfl
      (by simp [frameAt]) (by norm_num)).2.2⟩

/-! ## C2: the per-tick health update -/

theorem update_playHurt (g : Game) (f : Frame) :
    (update g f).1.playHurt = (afterHands g f).playHurt := by
  unfold update
  simp only
  split
  · rfl
  · split
    · rfl
    · split <;> rfl

/-- In the grace window at the start of the tunnel every hand is inside. -/
theorem handInside_of_near_start (g : Game) (side : ℕ) (hits : List Intersection)
    (h : g.distance < 20) : handInside g side hits = true := by
  unfold handInside
  cases hits with
  | nil => simp [h]
  | cons hit rest =>
    simp only [h, decide_True, Bool.or_true, Bool.true_or]
    split <;> rfl

/-- Claim C2, counterexample: with both hands safe (grace window at distance 5),
health 1/2 and a tick of 1/10 second, the code raises health to 3/5, while the
rule of the claim gives 11/20: each hand applies its own recovery. -/
theorem c2_two_safe_hands_example :
    (update (midGame (1 / 2)) (frameAt (1 / 10) (1 / 2) [midHit] [midHit])).1.playHurt = false ∧
      (update (midGame (1 / 2)) (frameAt (1 / 10) (1 / 2) [midHit] [midHit])).1.health = 3 / 5 ∧
      specHealthStep (1 / 2) (1 / 10) false = 11 / 20 ∧
      (update (midGame (1 / 2)) (frameAt (1 / 10) (1 / 2) [midHit] [midHit])).1.health ≠
        specHealthStep (midGame (1 / 2)).health (1 / 10)
          (update (midGame (1 / 2)) (frameAt (1 / 10) (1 / 2) [midHit] [midHit])).1.playHurt := by
  have hd : (beforeHands (midGame (1 / 2))
      (frameAt (1 / 10) (1 / 2) [midHit] [midHit])).distance < 20 := by
    simp [beforeHands, midGame, frameAt]; norm_num
  have h0 := handInside_of_near_start _ 0 [midHit] hd
  have h1 := handInside_of_near_start _ 1 [midHit] hd
  have hp : (update (midGame (1 / 2))
      (frameAt (1 / 10) (1 / 2) [midHit] [midHit])).1.playHurt = false := by
    rw [update_playHurt, afterHands_playHurt _ _ rfl]
    simp only [frameAt] at h0 h1 ⊢
    rw [h0, h1]
    rfl
  have hh : (update (midGame (1 / 2))
      (frameAt (1 / 10) (1 / 2) [midHit] [midHit])).1.health = 3 / 5 := by
    rw [update_health, afterHands_health _ _ rfl]
    simp only [frameAt] at h0 h1 ⊢
    rw [h0, h1]
    norm_num [midGame]
  have hs : specHealthStep (1 / 2) (1 / 10) false = 11 / 20 := by
    norm_num [specHealthStep, clamp]
  refine ⟨hp, hh, hs, ?_⟩
  rw [hh, hp]
  show (3 : ℚ) / 5 ≠ specHealthStep (1 / 2) (1 / 10) false
  rw [hs]
  norm_num

/-- Claim C2, as amended: in an active tick with clock delta `dt ≥ 0` and health at
most 1, each hand in turn applies `health := min(1, health + (inside ? dt / 2 : -dt))`.
The tick therefore yields `min(1, health + dt)` when both hands are safe,
`health - 2 * dt` when both are unsafe, `health - dt / 2` when only hand 0 is unsafe
and `min(1, health + dt / 2) - dt` when only hand 1 is unsafe, with no lower clamp;
`playHurt` is set exactly when at least one hand is unsafe. -/
theorem c2_health_update_per_hand (g : Game) (f : Frame)
    (hactive : g.levelOver = false) (hdt : 0 ≤ f.dt) (hle : g.health ≤ 1) :
    ((update g f).1.playHurt =
        (!handInside (beforeHands g f) 0 f.intersections0 ||
          !handInside (beforeHands g f) 1 f.intersections1)) ∧
      (update g f).1.health =
        min 1 (min 1 (g.health +
            (if handInside (beforeHands g f) 0 f.intersections0 then 1 / 2 * f.dt else -f.dt)) +
          (if handInside (beforeHands g f) 1 f.intersections1 then 1 / 2 * f.dt else -f.dt)) ∧
      (handInside (beforeHands g f) 0 f.intersections0 = true →
        handInside (beforeHands g f) 1 f.intersections1 = true →
        (update g f).1.health = min 1 (g.health + f.dt)) ∧
      (handInside (beforeHands g f) 0 f.intersections0 = false →
        handInside (beforeHands g f) 1 f.intersections1 = false →
        (update g f).1.health = g.health - 2 * f.dt) ∧
      (handInside (beforeHands g f) 0 f.intersections0 = false →
        handInside (beforeHands g f) 1 f.intersections1 = true →
        (update g f).1.health = g.health - 1 / 2 * f.dt) ∧
      (handInside (beforeHands g f) 0 f.intersections0 = true →
        handInside (beforeHands g f) 1 f.intersections1 = false →
        (update g f).1.health = min 1 (g.health + 1 / 2 * f.dt) - f.dt) := by
  have hh := afterHands_health g f hactive
  rw [update_playHurt, update_health, afterHands_playHurt g f hactive, hh]
  refine ⟨rfl, rfl, ?_, ?_, ?_, ?_⟩
  · intro a b
    simp only [a, b, if_true]
    rcases le_total (g.health + 1 / 2 * f.dt) 1 with h | h
    · rw [min_eq_right h]
      congr 1
      ring
    · rw [min_eq_left h, min_eq_left (by linarith), min_eq_left (by linarith)]
  · intro a b
    simp only [a, b]
    rw [if_neg (by simp), min_eq_right (show g.health + -f.dt ≤ 1 by linarith),
      min_eq_right (by linarith)]
    ring
  · intro a b
    simp only [a, b, if_true]
    rw [if_neg (by simp), min_eq_right (show g.health + -f.dt ≤ 1 by linarith),
      min_eq_right (by linarith)]
    ring
  · intro a b
    simp only [a, b, if_true]
    rw [if_neg (by simp)]
    have : min 1 (g.health + 1 / 2 * f.dt) ≤ 1 := min_le_left _ _
    rw [min_eq_right (by linarith)]
    ring

/-- Claim C2, the amended rule at a concrete tick: both hands safe at distance 5. -/
theorem c2_health_update_per_hand_witness :
    (midGame (1 / 2)).levelOver = false ∧
      (update (midGame (1 / 2)) (frameAt (1 / 10) (1 / 2) [midHit] [midHit])).1.playHurt =
        (!handInside (beforeHands (midGame (1 / 2))
            (frameAt (1 / 10) (1 / 2) [midHit] [midHit])) 0 [midHit] ||
          !handInside (beforeHands (midGame (1 / 2))
            (frameAt (1 / 10) (1 / 2) [midHit] [midHit])) 1 [midHit]) :=
  ⟨rfl,
    (c2_health_update_per_hand (midGame (1 / 2)) (frameAt (1 / 10) (1 / 2) [midHit] [midHit])
      rfl (by norm_num [frameAt]) (by norm_num [midGame])).1⟩

/-! ## The safe-lane test in exact arithmetic -/

theorem ofFn_getElem? {n : ℕ} (f : Fin n → ℕ) (i : ℕ) (h : i < n) :
    (Array.ofFn f)[i]? = some (f ⟨i, h⟩) := by
  rw [Array.getElem?_ofFn, dif_pos h]

theorem laneData_getElem? (center width i : ℕ) (h : i < 4096 * 4) :
    (laneData center width)[i]? = some (if i % 4 < 2 then center else width) := by
  unfold laneData
  rw [ofFn_getElem? _ i h]

theorem segmentValue_of_reads (data : Array ℕ) (c i : ℕ) (d : ℚ) (a b : ℕ)
    (e1 : data[i * 4 + c]? = some a) (e2 : data[(i + 1) * 4 + c]? = some b) :
    segmentValue data c i d = some (lerp (a : ℚ) (b : ℚ) (d - (i : ℚ))) := by
  unfold segmentValue
  rw [e1, e2]

theorem sample_laneData (center width c : ℕ) (d : ℚ) (hc : c < 4) :
    sampleTunnelData (laneData center width) c d =
      some (((if c < 2 then center else width : ℕ) : ℚ)) := by
  have hi := bucketIndex_le d
  have h1 : bucketIndex d * 4 + c < 4096 * 4 := by omega
  have h2 : (bucketIndex d + 1) * 4 + c < 4096 * 4 := by omega
  have m1 : (bucketIndex d * 4 + c) % 4 = c := by omega
  have m2 : ((bucketIndex d + 1) * 4 + c) % 4 = c := by omega
  have e1 := laneData_getElem? center width _ h1
  have e2 := laneData_getElem? center width _ h2
  rw [m1] at e1
  rw [m2] at e2
  unfold sampleTunnelData
  rw [segmentValue_of_reads _ _ _ _ _ _ e1 e2, lerp_same]

theorem jsRem_one_of_nonneg (x : ℚ) (hx : 0 ≤ x) : jsRem x 1 = Int.fract x := by
  unfold jsRem trunc
  rw [div_one, if_pos hx, one_mul]
  rfl

theorem jsRem_one_of_neg (x : ℚ) (hx : x < 0) (hx1 : -1 < x) : jsRem x 1 = x := by
  unfold jsRem trunc
  rw [div_one, if_neg (not_le.mpr hx), one_mul]
  have h : ⌈x⌉ = 0 := by
    rw [Int.ceil_eq_iff]
    constructor
    · simpa using hx1
    · simpa using hx.le
  rw [h]
  simp

/-- The code's expression agrees with the distance on the circle when the dividend of
the remainder is not negative. -/
theorem abs_rem_eq_wrappedDistance (a b : ℚ) (h : 0 ≤ a - b + 1 / 2) :
    |jsRem (a - b + 1 / 2) 1 - 1 / 2| = wrappedDistance a b := by
  rw [jsRem_one_of_nonneg _ h]
  unfold wrappedDistance
  have h0 := Int.fract_nonneg (a - b)
  have h1 := Int.fract_lt_one (a - b)
  have hdef : a - b = (⌊a - b⌋ : ℚ) + Int.fract (a - b) := (Int.floor_add_fract (a - b)).symm
  rcases lt_or_le (Int.fract (a - b)) (1 / 2) with hr | hr
  · have hf : ⌊a - b + 1 / 2⌋ = ⌊a - b⌋ := by
      rw [Int.floor_eq_iff]
      constructor <;> linarith
    have e : Int.fract (a - b + 1 / 2) = Int.fract (a - b) + 1 / 2 := by
      unfold Int.fract
      rw [hf]
      ring
    rw [e, min_eq_left (by linarith)]
    rw [abs_of_nonneg (by linarith)]
    ring
  · have hf : ⌊a - b + 1 / 2⌋ = ⌊a - b⌋ + 1 := by
      rw [Int.floor_eq_iff]
      push_cast
      constructor <;> linarith
    have e : Int.fract (a - b + 1 / 2) = Int.fract (a - b) - 1 / 2 := by
      unfold Int.fract
      rw [hf]
      push_cast
      ring
    rw [e, min_eq_right (by linarith)]
    rw [abs_of_nonpos (by linarith)]
    ring

theorem handInside_active_hit (g : Game) (side : ℕ) (hit : Intersection)
    (rest : List Intersection) (a w : ℚ)
    (hactive : g.levelOver = false) (h1 : 20 ≤ g.distance)
    (h2 : g.distance ≤ g.tunnelLength - 20)
    (ha : sampleTunnelData g.tunnelData side (hit.uvx * g.tunnelLength) = some a)
    (hw : sampleTunnelData g.tunnelData (side + 2) (hit.uvx * g.tunnelLength) = some w) :
    handInside g side (hit :: rest) = laneTest (hit.uvy + 1 / 4) (a / 255) (w / 255) := by
  simp [handInside, hitInside, hactive, ha, hw, h1, h2]

theorem laneGame_tunnelData (center width : ℕ) :
    (laneGame center width).tunnelData = laneData center width := by
  simp only [laneGame]

theorem sample_laneGame_center (center width side : ℕ) (hs : side < 2) (d : ℚ) :
    sampleTunnelData (laneGame center width).tunnelData side d = some (center : ℚ) := by
  have ha := sample_laneData center width side d (by omega)
  rw [if_pos hs] at ha
  rw [laneGame_tunnelData]
  exact ha

theorem sample_laneGame_width (center width side : ℕ) (hs : side < 2) (d : ℚ) :
    sampleTunnelData (laneGame center width).tunnelData (side + 2) d = some (width : ℚ) := by
  have hw := sample_laneData center width (side + 2) d (by omega)
  rw [if_neg (by omega)] at hw
  rw [laneGame_tunnelData]
  exact hw

theorem handInside_lane (g : Game) (center width side : ℕ) (hs : side < 2)
    (hit : Intersection) (rest : List Intersection)
    (hd : g.tunnelData = laneData center width) (hactive : g.levelOver = false)
    (h1 : 20 ≤ g.distance) (h2 : g.distance ≤ g.tunnelLength - 20) :
    handInside g side (hit :: rest) =
      laneTest (hit.uvy + 1 / 4) ((center : ℚ) / 255) ((width : ℚ) / 255) := by
  have ha := sample_laneData center width side (hit.uvx * g.tunnelLength) (by omega)
  have hw := sample_laneData center width (side + 2) (hit.uvx * g.tunnelLength) (by omega)
  rw [if_pos hs] at ha
  rw [if_neg (by omega)] at hw
  rw [← hd] at ha hw
  exact handInside_active_hit g side hit rest (center : ℚ) (width : ℚ) hactive h1 h2 ha hw

theorem handInside_laneGame (center width side : ℕ) (hs : side < 2) (hit : Intersection)
    (rest : List Intersection) :
    handInside (laneGame center width) side (hit :: rest) =
      laneTest (hit.uvy + 1 / 4) ((center : ℚ) / 255) ((width : ℚ) / 255) :=
  handInside_lane (laneGame center width) center width side hs hit rest
    (laneGame_tunnelData center width) rfl (by norm_num [laneGame]) (by norm_num [laneGame])

/-! ## C4: a raycast without a hit -/

theorem handInside_no_hit (g : Game) (side : ℕ) (hactive : g.levelOver = false)
    (h1 : 20 ≤ g.distance) (h2 : g.distance ≤ g.tunnelLength - 20) :
    handInside g side [] = false := by
  simp [handInside, hactive, h1, h2]

/-- Claim C4, counterexample: an active hand at distance 50 of a 100 metre tunnel whose
raycast returns nothing, with health 1/2 and a tick of 1/60 second. The code leaves
`inside` false, sets `playHurt` and applies the damage: health becomes 29/60, not the
61/120 that a recovery would give. -/
theorem c4_no_hit_is_hurt_example :
    handInside (midGame (1 / 2)) 0 [] = false ∧
      (handUpdate 0 (1 / 60) [] (midGame (1 / 2))).playHurt = true ∧
      (handUpdate 0 (1 / 60) [] (midGame (1 / 2))).health = 29 / 60 ∧
      (handUpdate 0 (1 / 60) [] (midGame (1 / 2))).health ≠
        min 1 ((midGame (1 / 2)).health + 1 / 2 * (1 / 60)) := by
  have hin : handInside (midGame (1 / 2)) 0 [] = false :=
    handInside_no_hit _ 0 rfl (by norm_num [midGame]) (by norm_num [midGame])
  have hp : (handUpdate 0 (1 / 60) [] (midGame (1 / 2))).playHurt = true := by
    rw [handUpdate_playHurt _ _ _ _ rfl, hin]
    rfl
  have hh : (handUpdate 0 (1 / 60) [] (midGame (1 / 2))).health = 29 / 60 := by
    rw [handUpdate_health _ _ _ _ rfl, hin]
    norm_num [midGame]
  refine ⟨hin, hp, hh, ?_⟩
  rw [hh]
  norm_num [midGame]

/-- Claim C4, as amended: in an active tick with the player distance between 20 and
`L - 20`, a hand whose raycast returns no intersection keeps `inside = false`: the
hand is treated as unsafe, `playHurt` is set and the health contribution is the
damage `-dt`. -/
theorem c4_no_hit_is_unsafe (g : Game) (side : ℕ) (dt : ℚ)
    (hactive : g.levelOver = false) (h1 : 20 ≤ g.distance)
    (h2 : g.distance ≤ g.tunnelLength - 20) :
    handInside g side [] = false ∧
      (handUpdate side dt [] g).playHurt = true ∧
      (handUpdate side dt [] g).health = min 1 (g.health + -dt) := by
  have hin := handInside_no_hit g side hactive h1 h2
  refine ⟨hin, ?_, ?_⟩
  · rw [handUpdate_playHurt _ _ _ _ hactive, hin]
    rfl
  · rw [handUpdate_health _ _ _ _ hactive, hin]
    simp

/-- Claim C4, the amended statement at a concrete hand: distance 50 of 100, no hit. -/
theorem c4_no_hit_is_unsafe_witness :
    (midGame 1).levelOver = false ∧
      handInside (midGame 1) 1 [] = false ∧
      (handUpdate 1 (1 / 60) [] (midGame 1)).playHurt = true ∧
      (handUpdate 1 (1 / 60) [] (midGame 1)).health = min 1 ((midGame 1).health + -(1 / 60)) :=
  ⟨rfl, c4_no_hit_is_unsafe (midGame 1) 1 (1 / 60) rfl (by norm_num [midGame])
    (by norm_num [midGame])⟩

/-! ## C5: the grace window at both ends of the tunnel -/

theorem handInside_of_grace (g : Game) (side : ℕ) (hits : List Intersection)
    (h : g.distance < 20 ∨ g.distance > g.tunnelLength - 20) :
    handInside g side hits = true := by
  have hin : (g.levelOver || decide (g.distance < 20) ||
      decide (g.distance > g.tunnelLength - 20)) = true := by
    rcases h with h | h
    · simp [h]
    · simp [h]
  unfold handInside
  simp only [hin, Bool.true_or]
  split
  · split <;> rfl
  · rfl

/-- Claim C5: within 20 metres of either end of the tunnel (`distance < 20` or
`distance > L - 20`), a hand whose raycast hits the tunnel is judged inside, whatever
the hazard-field bytes and the hit coordinate are: it does not set `playHurt`, its
health contribution in an active tick is the recovery `+dt / 2` (capped at 1) and,
with health at most 1 and a clock delta that is not negative, it does not decrease
health. -/
theorem c5_grace_window_is_safe (g : Game) (side : ℕ) (dt : ℚ) (hit : Intersection)
    (rest : List Intersection)
    (hgrace : g.distance < 20 ∨ g.distance > g.tunnelLength - 20)
    (hle : g.health ≤ 1) (hdt : 0 ≤ dt) :
    handInside g side (hit :: rest) = true ∧
      (handUpdate side dt (hit :: rest) g).playHurt = g.playHurt ∧
      (handUpdate side dt (hit :: rest) g).health =
        (if g.levelOver then g.health else min 1 (g.health + 1 / 2 * dt)) ∧
      g.health ≤ (handUpdate side dt (hit :: rest) g).health := by
  have hin := handInside_of_grace g side (hit :: rest) hgrace
  refine ⟨hin, ?_, ?_, ?_⟩
  · cases hover : g.levelOver
    · rw [handUpdate_playHurt _ _ _ _ hover, hin]
      rfl
    · rw [handUpdate_of_levelOver _ _ _ _ hover]
  · cases hover : g.levelOver
    · rw [handUpdate_health _ _ _ _ hover, hin]
      simp
    · rw [handUpdate_of_levelOver _ _ _ _ hover]
      simp
  · cases hover : g.levelOver
    · rw [handUpdate_health _ _ _ _ hover, hin]
      simp only [if_true, le_min_iff]
      constructor <;> linarith
    · rw [handUpdate_of_levelOver _ _ _ _ hover]

/-- Claim C5 at the scenario of the specification: distance 5, every lane closed, the
hand pointed at the wall. -/
theorem c5_grace_window_is_safe_witness :
    graceGame.distance < 20 ∧
      handInside graceGame 0 [wallHit] = true ∧
      (handUpdate 0 (1 / 60) [wallHit] graceGame).playHurt = graceGame.playHurt ∧
      (handUpdate 0 (1 / 60) [wallHit] graceGame).health =
        (if graceGame.levelOver then graceGame.health
          else min 1 (graceGame.health + 1 / 2 * (1 / 60))) ∧
      graceGame.health ≤ (handUpdate 0 (1 / 60) [wallHit] graceGame).health :=
  ⟨by norm_num [graceGame],
    c5_grace_window_is_safe graceGame 0 (1 / 60) wallHit []
      (Or.inl (by norm_num [graceGame])) (by norm_num [graceGame]) (by norm_num)⟩

/-! ## C6: the failure scenario -/

theorem handUpdate_static (side : ℕ) (dt : ℚ) (hits : List Intersection) (g : Game) :
    (handUpdate side dt hits g).tunnelData = g.tunnelData ∧
      (handUpdate side dt hits g).tunnelLength = g.tunnelLength ∧
      (handUpdate side dt hits g).velocity = g.velocity := by
  unfold handUpdate
  split
  · exact ⟨rfl, rfl, rfl⟩
  · exact ⟨rfl, rfl, rfl⟩

theorem afterHands_static (g : Game) (f : Frame) :
    (afterHands g f).tunnelData = g.tunnelData ∧
      (afterHands g f).tunnelLength = g.tunnelLength ∧
      (afterHands g f).velocity = g.velocity := by
  unfold afterHands
  obtain ⟨a1, b1, c1⟩ := handUpdate_static 1 f.dt f.intersections1
    (handUpdate 0 f.dt f.intersections0 (beforeHands g f))
  obtain ⟨a0, b0, c0⟩ := handUpdate_static 0 f.dt f.intersections0 (beforeHands g f)
  rw [a1, b1, c1, a0, b0, c0]
  exact ⟨rfl, rfl, rfl⟩

theorem update_of_levelOver (g : Game) (f : Frame) (h : g.levelOver = true) :
    (update g f).1.levelOver = true ∧ (update g f).1.health = g.health ∧
      (update g f).2 = Outcome.idle := by
  have h1 : (afterHands g f).levelOver = true := by rw [afterHands_levelOver]; exact h
  have h2 := afterHands_of_levelOver g f h
  unfold update
  simp only [h1, if_true]
  exact ⟨trivial, h2, trivial⟩

/-- An active tick during playback: the attempt fails exactly when the health left by
the two hands is 0 or below. -/
theorem update_active_playing (g : Game) (f : Frame) (hactive : g.levelOver = false)
    (hplay : f.isPlaying = true) :
    update g f =
      if (afterHands g f).health ≤ 0 then
        ({ afterHands g f with levelOver := true }, Outcome.failed)
      else (afterHands g f, Outcome.running) := by
  have h1 : (afterHands g f).levelOver = false := by rw [afterHands_levelOver]; exact hactive
  unfold update
  simp [h1, hplay]

theorem run_of_levelOver (fs : List Frame) :
    ∀ g : Game, g.levelOver = true →
      (run g fs).levelOver = true ∧ (run g fs).health = g.health ∧
        (outcomes g fs).count Outcome.failed = 0 := by
  induction fs with
  | nil => intro g h; exact ⟨h, rfl, rfl⟩
  | cons f fs ih =>
    intro g h
    obtain ⟨a, b, c⟩ := update_of_levelOver g f h
    obtain ⟨a2, b2, c2⟩ := ih (update g f).1 a
    refine ⟨a2, ?_, ?_⟩
    · show (run (update g f).1 fs).health = g.health
      rw [b2, b]
    · show ((update g f).2 :: outcomes (update g f).1 fs).count Outcome.failed = 0
      rw [c, List.count_cons, c2]
      rfl

/-- One active tick of 1/60 second with an unsafe hand lowers health, counted in
units of 1/120, by at least 1 and at most 4. -/
theorem hurt_tick_units (g : Game) (f : Frame) (m : ℤ)
    (hactive : g.levelOver = false) (hdt : f.dt = 1 / 60)
    (hm : g.health = (m : ℚ) / 120) (hm120 : m ≤ 120)
    (hhurt : handInside (beforeHands g f) 0 f.intersections0 = false ∨
      handInside (beforeHands g f) 1 f.intersections1 = false) :
    ∃ m1 : ℤ, (afterHands g f).health = (m1 : ℚ) / 120 ∧ m - 4 ≤ m1 ∧ m1 ≤ m - 1 := by
  have hq : (m : ℚ) ≤ 120 := by exact_mod_cast hm120
  rw [afterHands_health g f hactive, hdt, hm]
  cases h0 : handInside (beforeHands g f) 0 f.intersections0 <;>
    cases h1 : handInside (beforeHands g f) 1 f.intersections1
  · refine ⟨m - 4, ?_, le_refl _, by omega⟩
    simp only [Bool.false_eq_true, if_false]
    rw [min_eq_right (show (m : ℚ) / 120 + -(1 / 60) ≤ 1 by linarith),
      min_eq_right (by linarith)]
    push_cast
    ring
  · refine ⟨m - 1, ?_, by omega, le_refl _⟩
    simp only [Bool.false_eq_true, if_false, if_true]
    rw [min_eq_right (show (m : ℚ) / 120 + -(1 / 60) ≤ 1 by linarith),
      min_eq_right (by linarith)]
    push_cast
    ring
  · simp only [Bool.false_eq_true, if_false, if_true]
    rcases eq_or_lt_of_le hm120 with he | hl
    · refine ⟨m - 2, ?_, by omega, by omega⟩
      subst he
      norm_num
    · have hq2 : (m : ℚ) ≤ 119 := by exact_mod_cast (show m ≤ 119 by omega)
      refine ⟨m - 1, ?_, by omega, le_refl _⟩
      rw [min_eq_right (show (m : ℚ) / 120 + 1 / 2 * (1 / 60) ≤ 1 by linarith),
        min_eq_right (by linarith)]
      push_cast
      ring
  · rw [h0, h1] at hhurt
    rcases hhurt with h | h <;> exact absurd h (by simp)

theorem run_cons (g : Game) (f : Frame) (fs : List Frame) :
    run g (f :: fs) = run (update g f).1 fs :=
  rfl

theorem outcomes_cons (g : Game) (f : Frame) (fs : List Frame) :
    outcomes g (f :: fs) = (update g f).2 :: outcomes (update g f).1 fs :=
  rfl

/-- Along a run of ticks of 1/60 second during playback in which every active tick
has an unsafe hand: either the attempt is still active, health is a positive number
of units of 1/120 that has dropped by at least one unit per tick, and no failure has
been taken; or the attempt is over, health lies in `[-1/40, 0]` and the failure has
been taken exactly once. -/
theorem hurt_run_units (fs : List Frame) :
    ∀ (g : Game) (m : ℤ), (∀ f ∈ fs, f.dt = 1 / 60 ∧ f.isPlaying = true) →
      hurtWhileActive g fs = true → g.levelOver = false → g.health = (m : ℚ) / 120 →
      0 < m → m ≤ 120 →
      ((run g fs).levelOver = false ∧
          (∃ m2 : ℤ, (run g fs).health = (m2 : ℚ) / 120 ∧ 0 < m2 ∧ m2 ≤ m - fs.length) ∧
          (outcomes g fs).count Outcome.failed = 0) ∨
        ((run g fs).levelOver = true ∧ (run g fs).health ≤ 0 ∧
          -(1 / 40) ≤ (run g fs).health ∧ (outcomes g fs).count Outcome.failed = 1) := by
  induction fs with
  | nil =>
    intro g m _ _ ha hm h0 _
    left
    exact ⟨ha, ⟨m, hm, h0, by simp⟩, rfl⟩
  | cons f fs ih =>
    intro g m hf hh ha hm h0 h1
    obtain ⟨hdt, hplay⟩ := hf f (List.mem_cons_self f fs)
    simp only [hurtWhileActive, Bool.and_eq_true, Bool.or_eq_true, Bool.not_eq_true', ha,
      Bool.false_eq_true, false_or] at hh
    obtain ⟨hh1, hh2⟩ := hh
    obtain ⟨m1, e1, lo, hi⟩ := hurt_tick_units g f m ha hdt hm h1 hh1
    have hupd := update_active_playing g f ha hplay
    rw [run_cons, outcomes_cons]
    by_cases hz : (afterHands g f).health ≤ 0
    · rw [if_pos hz] at hupd
      have hover : (update g f).1.levelOver = true := by rw [hupd]
      obtain ⟨a, b, c⟩ := run_of_levelOver fs (update g f).1 hover
      right
      refine ⟨a, ?_, ?_, ?_⟩
      · rw [b, update_health]
        exact hz
      · rw [b, update_health, e1]
        have hq : ((m : ℚ) - 4) ≤ (m1 : ℚ) := by exact_mod_cast lo
        have hq0 : (1 : ℚ) ≤ (m : ℚ) := by exact_mod_cast h0
        linarith
      · rw [List.count_cons, c, hupd]
        rfl
    · rw [if_neg hz] at hupd
      have hpos : 0 < m1 := by
        rw [e1] at hz
        have : (0 : ℚ) < (m1 : ℚ) := by
          by_contra hc
          apply hz
          have : (m1 : ℚ) ≤ 0 := not_lt.mp hc
          linarith
        exact_mod_cast this
      have hact : (update g f).1.levelOver = false := by
        rw [hupd]
        show (afterHands g f).levelOver = false
        rw [afterHands_levelOver]
        exact ha
      have hhealth : (update g f).1.health = (m1 : ℚ) / 120 := by
        rw [update_health]
        exact e1
      rcases ih (update g f).1 m1 (fun x hx => hf x (List.mem_cons_of_mem f hx)) hh2 hact
        hhealth hpos (by omega) with ⟨a, ⟨m2, e, p, q⟩, c⟩ | ⟨a, b1, b2, c⟩
      · left
        refine ⟨a, ⟨m2, e, p, ?_⟩, ?_⟩
        · simp only [List.length_cons, Nat.cast_add, Nat.cast_one]
          omega
        · rw [List.count_cons, c, hupd]
          rfl
      · right
        refine ⟨a, b1, b2, ?_⟩
        rw [List.count_cons, c, hupd]
        rfl

theorem everyTickHurts_hurtWhileActive (fs : List Frame) :
    ∀ g : Game, everyTickHurts g fs = true → hurtWhileActive g fs = true := by
  induction fs with
  | nil => intro g _; rfl
  | cons f fs ih =>
    intro g h
    simp only [everyTickHurts, Bool.and_eq_true, Bool.or_eq_true, Bool.not_eq_true'] at h
    simp only [hurtWhileActive, Bool.and_eq_true, Bool.or_eq_true, Bool.not_eq_true']
    refine ⟨?_, ih _ h.2⟩
    rcases h.1 with h0 | h1
    · exact Or.inl (Or.inr h0)
    · exact Or.inr h1

theorem laneTest_wallHit :
    laneTest (wallHit.uvy + 1 / 4) (((64 : ℕ) : ℚ) / 255) (((32 : ℕ) : ℚ) / 255) = false := by
  unfold laneTest
  rw [jsRem_one_of_nonneg _ (by norm_num [wallHit])]
  have e : Int.fract (wallHit.uvy + 1 / 4 - ((64 : ℕ) : ℚ) / 255 + 1 / 2) = 1019 / 1020 := by
    rw [Int.fract_eq_iff]
    refine ⟨by norm_num, by norm_num, 0, ?_⟩
    norm_num [wallHit]
  rw [e]
  norm_num [abs_lt]

theorem laneTest_midHit :
    laneTest (midHit.uvy + 1 / 4) (((64 : ℕ) : ℚ) / 255) (((32 : ℕ) : ℚ) / 255) = true := by
  unfold laneTest
  rw [jsRem_one_of_nonneg _ (by norm_num [midHit])]
  have e : Int.fract (midHit.uvy + 1 / 4 - ((64 : ℕ) : ℚ) / 255 + 1 / 2) = 509 / 1020 := by
    rw [Int.fract_eq_iff]
    refine ⟨by norm_num, by norm_num, 0, ?_⟩
    norm_num [midHit]
  rw [e]
  norm_num [abs_lt]

/-- The judgement of a hand over `laneData 64 32` during playback between seconds 2
and 8 of a tunnel of 100 metres travelled at 10 metres per second. -/
theorem handInside_lane_playing (g : Game) (f : Frame) (side : ℕ) (hs : side < 2)
    (hit : Intersection)
    (hactive : g.levelOver = false) (hd : g.tunnelData = laneData 64 32)
    (hl : g.tunnelLength = 100) (hv : g.velocity = 10) (hplay : f.isPlaying = true)
    (ht1 : 2 ≤ f.currentTime) (ht2 : f.currentTime ≤ 8) :
    handInside (beforeHands g f) side (hit :: []) =
      laneTest (hit.uvy + 1 / 4) (((64 : ℕ) : ℚ) / 255) (((32 : ℕ) : ℚ) / 255) := by
  apply handInside_lane (beforeHands g f) 64 32 side hs hit []
  · exact hd
  · exact hactive
  · simp only [beforeHands, hplay, if_true, hv]
    linarith
  · simp only [beforeHands, hplay, if_true, hv, hl]
    linarith

/-- A prefix of ticks in which hand 0 is at the wall and hand 1 in its lane lowers
health by 1/120 per tick and keeps the attempt active, as long as health stays
positive. -/
theorem one_hand_prefix (fs : List Frame) (tail : List Frame) :
    ∀ g : Game, g.levelOver = false → g.tunnelData = laneData 64 32 →
      g.tunnelLength = 100 → g.velocity = 10 → g.health ≤ 1 →
      (fs.length : ℚ) / 120 < g.health →
      (∀ f ∈ fs, f.dt = 1 / 60 ∧ f.isPlaying = true ∧ 2 ≤ f.currentTime ∧
        f.currentTime ≤ 8 ∧ f.intersections0 = [wallHit] ∧ f.intersections1 = [midHit]) →
      ∃ g2 : Game, g2.levelOver = false ∧ g2.tunnelData = laneData 64 32 ∧
        g2.tunnelLength = 100 ∧ g2.velocity = 10 ∧
        g2.health = g.health - (fs.length : ℚ) / 120 ∧
        run g (fs ++ tail) = run g2 tail ∧
        outcomes g (fs ++ tail) = List.replicate fs.length Outcome.running ++ outcomes g2 tail ∧
        (everyTickHurts g2 tail = true → everyTickHurts g (fs ++ tail) = true) := by
  induction fs with
  | nil =>
    intro g ha hd hl hv _ _ _
    exact ⟨g, ha, hd, hl, hv, by simp, rfl, rfl, fun h => h⟩
  | cons f fs ih =>
    intro g ha hd hl hv hle hpos hf
    obtain ⟨hdt, hplay, ht1, ht2, hi0, hi1⟩ := hf f (List.mem_cons_self f fs)
    have hlen : ((f :: fs).length : ℚ) = (fs.length : ℚ) + 1 := by
      simp only [List.length_cons, Nat.cast_add, Nat.cast_one]
    rw [hlen] at hpos
    have hn : (0 : ℚ) ≤ (fs.length : ℚ) := Nat.cast_nonneg _
    have h0 : handInside (beforeHands g f) 0 f.intersections0 = false := by
      rw [hi0, handInside_lane_playing g f 0 (by norm_num) wallHit ha hd hl hv hplay ht1 ht2]
      exact laneTest_wallHit
    have h1 : handInside (beforeHands g f) 1 f.intersections1 = true := by
      rw [hi1, handInside_lane_playing g f 1 (by norm_num) midHit ha hd hl hv hplay ht1 ht2]
      exact laneTest_midHit
    have hh : (afterHands g f).health = g.health - 1 / 120 := by
      rw [afterHands_health g f ha, h0, h1, hdt]
      simp only [Bool.false_eq_true, if_false, if_true]
      rw [min_eq_right (show g.health + -(1 / 60) ≤ 1 by linarith),
        min_eq_right (by linarith)]
      ring
    have hupd := update_active_playing g f ha hplay
    rw [if_neg (by rw [hh]; intro hc; linarith)] at hupd
    obtain ⟨sd, sl, sv⟩ := afterHands_static g f
    have hupd1 : (update g f).1 = afterHands g f := by rw [hupd]
    have hupd2 : (update g f).2 = Outcome.running := by rw [hupd]
    obtain ⟨g2, a, b, c, d, e, r, o, t⟩ := ih (afterHands g f)
      (by rw [afterHands_levelOver]; exact ha) (by rw [sd]; exact hd) (by rw [sl]; exact hl)
      (by rw [sv]; exact hv) (by rw [hh]; linarith) (by rw [hh]; linarith)
      (fun x hx => hf x (List.mem_cons_of_mem f hx))
    refine ⟨g2, a, b, c, d, ?_, ?_, ?_, ?_⟩
    · rw [e, hh, hlen]
      ring
    · rw [List.cons_append, run_cons, hupd1]
      exact r
    · rw [List.cons_append, outcomes_cons, hupd1, hupd2, o]
      rfl
    · intro h
      rw [List.cons_append]
      simp only [everyTickHurts, Bool.and_eq_true, Bool.or_eq_true, Bool.not_eq_true']
      rw [hupd1]
      exact ⟨Or.inl h0, t h⟩

theorem oneHandFrames_length : oneHandFrames.length = 119 := by
  simp [oneHandFrames]

theorem oneHandFrames_spec :
    ∀ f ∈ oneHandFrames, f.dt = 1 / 60 ∧ f.isPlaying = true ∧ 2 ≤ f.currentTime ∧
      f.currentTime ≤ 8 ∧ f.intersections0 = [wallHit] ∧ f.intersections1 = [midHit] := by
  intro f hf
  simp only [oneHandFrames, List.mem_map, List.mem_range] at hf
  obtain ⟨k, hk, rfl⟩ := hf
  have h0 : (0 : ℚ) ≤ (k : ℚ) := Nat.cast_nonneg k
  have h1 : (k : ℚ) ≤ 118 := by exact_mod_cast (show k ≤ 118 by omega)
  refine ⟨rfl, rfl, ?_, ?_, rfl, rfl⟩
  · show (2 : ℚ) ≤ 3 + (k : ℚ) / 60
    linarith
  · show 3 + (k : ℚ) / 60 ≤ 8
    linarith

theorem hurtFrames_length : hurtFrames.length = 120 := by
  simp [hurtFrames, oneHandFrames_length]

theorem hurtFrames_spec : ∀ f ∈ hurtFrames, f.dt = 1 / 60 ∧ f.isPlaying = true := by
  intro f hf
  simp only [hurtFrames, List.mem_append, List.mem_singleton] at hf
  rcases hf with hf | rfl
  · exact ⟨(oneHandFrames_spec f hf).1, (oneHandFrames_spec f hf).2.1⟩
  · exact ⟨rfl, rfl⟩

/-- The run over `hurtFrames` from `laneGame 64 32`: every tick has an unsafe hand,
the first 119 ticks keep running, the last one fails and leaves health at -1/40. -/
theorem hurtFrames_trace :
    everyTickHurts (laneGame 64 32) hurtFrames = true ∧
      (run (laneGame 64 32) hurtFrames).health = -(1 / 40) ∧
      outcomes (laneGame 64 32) hurtFrames =
        List.replicate 119 Outcome.running ++ [Outcome.failed] := by
  obtain ⟨g2, a, b, c, d, e, r, o, t⟩ := one_hand_prefix oneHandFrames
    [frameAt (1 / 60) (3 + 119 / 60) [wallHit] [wallHit]] (laneGame 64 32) rfl
    (laneGame_tunnelData 64 32) rfl rfl (by norm_num [laneGame])
    (by rw [oneHandFrames_length]; norm_num [laneGame]) oneHandFrames_spec
  rw [oneHandFrames_length] at e o
  have hg2 : g2.health = 1 / 120 := by
    rw [e]
    norm_num [laneGame]
  have hplay : (frameAt (1 / 60) (3 + 119 / 60) [wallHit] [wallHit]).isPlaying = true := rfl
  have hin : ∀ side : ℕ, side < 2 →
      handInside (beforeHands g2 (frameAt (1 / 60) (3 + 119 / 60) [wallHit] [wallHit])) side
        [wallHit] = false := by
    intro side hs
    rw [handInside_lane_playing g2 _ side hs wallHit a b c d hplay
      (by norm_num [frameAt]) (by norm_num [frameAt])]
    exact laneTest_wallHit
  have hh : (afterHands g2 (frameAt (1 / 60) (3 + 119 / 60) [wallHit] [wallHit])).health =
      -(1 / 40) := by
    rw [afterHands_health g2 _ a]
    have h0 := hin 0 (by norm_num)
    have h1 := hin 1 (by norm_num)
    simp only [frameAt] at h0 h1 ⊢
    rw [h0, h1, hg2]
    norm_num
  have hupd := update_active_playing g2 _ a hplay
  rw [if_pos (by rw [hh]; norm_num)] at hupd
  refine ⟨?_, ?_, ?_⟩
  · apply t
    simp only [everyTickHurts, Bool.and_eq_true, Bool.or_eq_true, Bool.not_eq_true']
    exact ⟨Or.inl (hin 0 (by norm_num)), trivial⟩
  · show (run (laneGame 64 32) (oneHandFrames ++ _)).health = _
    rw [r]
    show (update g2 _).1.health = _
    rw [update_health, hh]
  · show outcomes (laneGame 64 32) (oneHandFrames ++ _) = _
    rw [o]
    show _ ++ [(update g2 _).2] = _
    rw [hupd]

/-- Claim C6, counterexample: from health 1, 119 ticks of 1/60 second with hand 0 at
the wall and hand 1 in its lane (each lowering health by 1/120), then one tick with
both hands at the wall. Every one of the 120 ticks has an unsafe hand, and health
ends at -1/40, not at 0. -/
theorem c6_overshoot_example :
    (laneGame 64 32).levelOver = false ∧ (laneGame 64 32).health = 1 ∧
      hurtFrames.length = 120 ∧
      (∀ f ∈ hurtFrames, f.dt = 1 / 60 ∧ f.isPlaying = true) ∧
      everyTickHurts (laneGame 64 32) hurtFrames = true ∧
      (run (laneGame 64 32) hurtFrames).health = -(1 / 40) ∧
      (run (laneGame 64 32) hurtFrames).health ≠ 0 := by
  refine ⟨rfl, rfl, hurtFrames_length, hurtFrames_spec, hurtFrames_trace.1,
    hurtFrames_trace.2.1, ?_⟩
  rw [hurtFrames_trace.2.1]
  norm_num

/-- Claim C6, as amended: starting an active attempt with health 1 during playback,
if on each of 120 consecutive ticks with `dt = 1/60` on which the attempt is still
active at least one hand is judged unsafe, then the attempt is over at the end, the
failure branch of `update` has been taken on exactly one of those ticks, and health
ends in `[-1/40, 0]` (it may overshoot 0, there is no lower clamp). -/
theorem c6_failure_exactly_once (g : Game) (frames : List Frame)
    (hactive : g.levelOver = false) (hhealth : g.health = 1)
    (hlen : frames.length = 120)
    (hframes : ∀ f ∈ frames, f.dt = 1 / 60 ∧ f.isPlaying = true)
    (hhurt : hurtWhileActive g frames = true) :
    (run g frames).levelOver = true ∧
      (outcomes g frames).count Outcome.failed = 1 ∧
      (run g frames).health ≤ 0 ∧ -(1 / 40) ≤ (run g frames).health := by
  rcases hurt_run_units frames g 120 hframes hhurt hactive (by rw [hhealth]; norm_num)
    (by norm_num) (le_refl _) with ⟨_, ⟨m2, _, p, q⟩, _⟩ | ⟨a, b1, b2, c⟩
  · rw [hlen] at q
    omega
  · exact ⟨a, c, b1, b2⟩

/-- Claim C6, the amended statement at the run over `hurtFrames`. -/
theorem c6_failure_exactly_once_witness :
    hurtFrames.length = 120 ∧
      (run (laneGame 64 32) hurtFrames).levelOver = true ∧
      (outcomes (laneGame 64 32) hurtFrames).count Outcome.failed = 1 ∧
      (run (laneGame 64 32) hurtFrames).health ≤ 0 ∧
      -(1 / 40) ≤ (run (laneGame 64 32) hurtFrames).health :=
  ⟨hurtFrames_length,
    c6_failure_exactly_once (laneGame 64 32) hurtFrames rfl rfl hurtFrames_length
      hurtFrames_spec (everyTickHurts_hurtWhileActive _ _ hurtFrames_trace.1)⟩

/-! ## C7: the clamp invariant of the quantized field -/

theorem round_mono {x y : ℚ} (h : x ≤ y) : round x ≤ round y := by
  unfold round
  exact Int.floor_mono (by linarith)

theorem round_intCast (n : ℤ) : round (n : ℚ) = n := by
  unfold round
  rw [Int.floor_eq_iff]
  constructor <;> linarith

theorem sub_half_lt_round (x : ℚ) : x - 1 / 2 < (round x : ℚ) := by
  unfold round
  have := Int.lt_floor_add_one (x + 1 / 2)
  linarith

theorem quantize_range (minWidth : ℚ) (i : ℕ) (v : ℚ) :
    0 ≤ quantize minWidth i v ∧ quantize minWidth i v ≤ 255 := by
  unfold quantize
  exact ⟨lo_le_clamp _ _ _, clamp_le_hi _ _ _ (by norm_num)⟩

theorem rawChannelValue_width (minWidth : ℚ) (i : ℕ) (v : ℚ) (hi : i % 4 = 2 ∨ i % 4 = 3) :
    rawChannelValue minWidth i v = clamp (v * 64) minWidth 64 := by
  unfold rawChannelValue
  rw [if_neg (by omega), if_neg (by omega), if_pos (by omega)]
  ring

theorem quantize_width (minWidth : ℚ) (i : ℕ) (v : ℚ) (hi : i % 4 = 2 ∨ i % 4 = 3)
    (h0 : 0 ≤ minWidth) (h64 : minWidth ≤ 64) :
    round minWidth ≤ quantize minWidth i v ∧ quantize minWidth i v ≤ 64 := by
  have hlo : minWidth ≤ clamp (v * 64) minWidth 64 := lo_le_clamp _ _ _
  have hhi : clamp (v * 64) minWidth 64 ≤ 64 := clamp_le_hi _ _ _ h64
  have r1 : round minWidth ≤ round (clamp (v * 64) minWidth 64) := round_mono hlo
  have r2 : round (clamp (v * 64) minWidth 64) ≤ 64 := by
    have := round_mono hhi
    rw [show (64 : ℚ) = ((64 : ℤ) : ℚ) by norm_num, round_intCast] at this
    exact this
  have r0 : (0 : ℤ) ≤ round minWidth := by
    have := round_mono h0
    rw [show (0 : ℚ) = ((0 : ℤ) : ℚ) by norm_num, round_intCast] at this
    exact this
  unfold quantize
  rw [rawChannelValue_width minWidth i v hi]
  unfold clamp at r1 r2 ⊢
  rw [min_eq_right (by omega), max_eq_right (by omega)]
  exact ⟨r1, r2⟩

theorem levelData_getElem? (minWidth : ℚ) (parameters : Array ℚ) (i : ℕ) :
    (levelData minWidth parameters)[i]? = parameters[i]?.map (quantize minWidth i) := by
  unfold levelData
  rw [Array.getElem?_mapIdx]

/-- Claim C7, counterexample: with `minWidth = 1/4` and an accumulated width value 0,
the width byte is `round(1/4) = 0`, which is below `minWidth`: the lane closes to
zero width. -/
theorem c7_fractional_minWidth_example :
    (levelData (1 / 4) #[0, 0, 0, 0])[2]? = some 0 ∧ ¬ ((1 / 4 : ℚ) ≤ ((0 : ℤ) : ℚ)) := by
  constructor
  · rw [levelData_getElem?]
    have e : quantize (1 / 4) 2 0 = 0 := by
      norm_num [quantize, rawChannelValue, clamp, round]
    have hp : (#[0, 0, 0, 0] : Array ℚ)[2]? = some 0 := rfl
    rw [hp, Option.map_some', e]
  · norm_num

/-- Claim C7, as amended: for every accumulated parameter array and every `minWidth`
with `0 ≤ minWidth ≤ 64`, every entry of the quantized data array is an integer in
`[0, 255]`, and every width-channel entry (index mod 4 in {2, 3}) is at most 64 and at
least `round(minWidth)`, hence above `minWidth - 1/2`, and at least `minWidth` when
`minWidth` is a whole number. -/
theorem c7_quantized_bounds (minWidth : ℚ) (parameters : Array ℚ) (i : ℕ) (b : ℤ)
    (h0 : 0 ≤ minWidth) (h64 : minWidth ≤ 64)
    (hb : (levelData minWidth parameters)[i]? = some b) :
    (0 ≤ b ∧ b ≤ 255) ∧
      (i % 4 = 2 ∨ i % 4 = 3 →
        round minWidth ≤ b ∧ b ≤ 64 ∧ minWidth - 1 / 2 < (b : ℚ) ∧
          ∀ n : ℤ, minWidth = (n : ℚ) → n ≤ b) := by
  rw [levelData_getElem?] at hb
  cases hv : parameters[i]? with
  | none => rw [hv] at hb; exact absurd hb (by simp)
  | some v =>
    rw [hv] at hb
    simp only [Option.map_some', Option.some.injEq] at hb
    subst hb
    refine ⟨quantize_range minWidth i v, fun hi => ?_⟩
    obtain ⟨r1, r2⟩ := quantize_width minWidth i v hi h0 h64
    refine ⟨r1, r2, ?_, ?_⟩
    · have := sub_half_lt_round minWidth
      have hc : (round minWidth : ℚ) ≤ (quantize minWidth i v : ℚ) := by exact_mod_cast r1
      linarith
    · intro n hn
      subst hn
      rw [round_intCast] at r1
      exact r1

/-- Claim C7, the amended bounds at a concrete bucket: `minWidth = 16` and an
accumulated width value 3/10, which quantizes to 19. -/
theorem c7_quantized_bounds_witness :
    (levelData 16 #[0, 0, 3 / 10, 0])[2]? = some 19 ∧ ((0 : ℤ) ≤ 19 ∧ (19 : ℤ) ≤ 255) :=
  have h : (levelData 16 #[0, 0, 3 / 10, 0])[2]? = some 19 := by
    rw [levelData_getElem?]
    have e : quantize 16 2 (3 / 10) = 19 := by
      norm_num [quantize, rawChannelValue, clamp, round]
    have hp : (#[0, 0, 3 / 10, 0] : Array ℚ)[2]? = some (3 / 10) := rfl
    rw [hp, Option.map_some', e]
  ⟨h, (c7_quantized_bounds 16 #[0, 0, 3 / 10, 0] 2 19 (by norm_num) (by norm_num) h).1⟩

/-! ## C8: exactness and continuity of the lookup -/

theorem read_some (data : Array ℕ) (i : ℕ) (h : i < data.size) :
    ∃ b : ℕ, data[i]? = some b :=
  ⟨data[i], getElem?_pos data i h⟩

theorem flatData_size (b : ℕ) : (flatData b).size = 4096 * 4 := by
  simp [flatData]

/-- Claim C8: for a hazard field of `4096 * 4` bytes, a channel `c < 4` and an integer
bucket `k` with `0 ≤ k ≤ 4095`, the lookup at `d = k` returns the raw byte
`data[4k + c]` exactly; and at every interior `k` the interpolation of segment
`[k-1, k]` evaluated at `k` and that of segment `[k, k+1]` evaluated at `k` both equal
that byte, so the lookup has no jump at a bucket boundary. -/
theorem c8_lookup_exact_at_buckets (data : Array ℕ) (c k : ℕ)
    (hsize : data.size = 4096 * 4) (hc : c < 4) (hk : k ≤ 4095) :
    ∃ b : ℕ, data[k * 4 + c]? = some b ∧
      sampleTunnelData data c (k : ℚ) = some (b : ℚ) ∧
      (0 < k → k < 4095 →
        segmentValue data c (k - 1) (k : ℚ) = some (b : ℚ) ∧
        segmentValue data c k (k : ℚ) = some (b : ℚ) ∧
        segmentValue data c (k - 1) (k : ℚ) = segmentValue data c k (k : ℚ)) := by
  obtain ⟨b, hb⟩ := read_some data (k * 4 + c) (by omega)
  have right_seg : k < 4095 → segmentValue data c k (k : ℚ) = some (b : ℚ) := by
    intro h
    obtain ⟨b2, hb2⟩ := read_some data ((k + 1) * 4 + c) (by omega)
    rw [segmentValue_of_reads data c k _ b b2 hb hb2, sub_self, lerp_zero]
  have left_seg : 0 < k → segmentValue data c (k - 1) (k : ℚ) = some (b : ℚ) := by
    intro h
    obtain ⟨b0, hb0⟩ := read_some data ((k - 1) * 4 + c) (by omega)
    have hb1 : data[(k - 1 + 1) * 4 + c]? = some b := by
      rw [Nat.sub_add_cancel h]
      exact hb
    rw [segmentValue_of_reads data c (k - 1) _ b0 b hb0 hb1]
    have e : (k : ℚ) - ((k - 1 : ℕ) : ℚ) = 1 := by
      rw [Nat.cast_sub h]
      simp
    rw [e, lerp_one]
  refine ⟨b, hb, ?_, ?_⟩
  · unfold sampleTunnelData
    rcases Nat.lt_or_ge k 4095 with h | h
    · rw [bucketIndex_natCast k (by omega)]
      exact right_seg h
    · have hk2 : k = 4095 := by omega
      subst hk2
      rw [bucketIndex_of_large _ (by norm_num)]
      exact left_seg (by norm_num)
  · intro h0 h1
    exact ⟨left_seg h0, right_seg h1, by rw [left_seg h0, right_seg h1]⟩

/-- Claim C8 at a concrete field: all bytes 7, channel 1, bucket 10. -/
theorem c8_lookup_exact_at_buckets_witness :
    (flatData 7).size = 4096 * 4 ∧
      ∃ b : ℕ, (flatData 7)[10 * 4 + 1]? = some b ∧
        sampleTunnelData (flatData 7) 1 ((10 : ℕ) : ℚ) = some (b : ℚ) ∧
        (0 < 10 → 10 < 4095 →
          segmentValue (flatData 7) 1 (10 - 1) ((10 : ℕ) : ℚ) = some (b : ℚ) ∧
          segmentValue (flatData 7) 1 10 ((10 : ℕ) : ℚ) = some (b : ℚ) ∧
          segmentValue (flatData 7) 1 (10 - 1) ((10 : ℕ) : ℚ) =
            segmentValue (flatData 7) 1 10 ((10 : ℕ) : ℚ)) :=
  ⟨flatData_size 7,
    c8_lookup_exact_at_buckets (flatData 7) 1 10 (flatData_size 7) (by norm_num) (by norm_num)⟩

/-! ## C9: the lookup outside the bucket range -/

theorem spikeData_getElem? (i : ℕ) (h : i < 4096 * 4) :
    spikeData[i]? = some (if i = 0 ∨ i = 4 * 4095 then 255 else 0) := by
  unfold spikeData
  rw [Array.getElem?_modify, Array.getElem?_modify, Array.getElem?_mkArray, if_pos h]
  by_cases h1 : 4 * 4095 = i
  · rw [if_pos h1, if_neg (by omega), if_pos (Or.inr h1.symm)]
    rfl
  · rw [if_neg h1]
    by_cases h0 : 0 = i
    · rw [if_pos h0, if_pos (Or.inl h0.symm)]
      rfl
    · rw [if_neg h0, if_neg (by omega)]

/-- Claim C9, counterexample: over a field whose channel 0 holds 255 in the first and
in the last bucket and 0 in their neighbours, the lookup at `d = 4096` returns 510 and
the lookup at `d = -1` returns 510, while the clamped distances 4095 and 0 give the
byte 255: the index is clamped, the interpolation weight is not, and the result
leaves `[0, 255]`. -/
theorem c9_extrapolation_example :
    sampleTunnelData spikeData 0 4096 = some 510 ∧
      sampleTunnelData spikeData 0 ((4095 : ℕ) : ℚ) = some 255 ∧
      sampleTunnelData spikeData 0 (-1) = some 510 ∧
      sampleTunnelData spikeData 0 ((0 : ℕ) : ℚ) = some 255 ∧
      ¬ ((510 : ℚ) ≤ 255) := by
  have r0 : spikeData[0 * 4 + 0]? = some 255 := by
    rw [spikeData_getElem? _ (by norm_num)]; rfl
  have r1 : spikeData[(0 + 1) * 4 + 0]? = some 0 := by
    rw [spikeData_getElem? _ (by norm_num)]; rfl
  have r2 : spikeData[4094 * 4 + 0]? = some 0 := by
    rw [spikeData_getElem? _ (by norm_num)]; rfl
  have r3 : spikeData[(4094 + 1) * 4 + 0]? = some 255 := by
    rw [spikeData_getElem? _ (by norm_num)]; rfl
  refine ⟨?_, ?_, ?_, ?_, by norm_num⟩
  · unfold sampleTunnelData
    rw [bucketIndex_of_large _ (by norm_num), segmentValue_of_reads _ _ _ _ _ _ r2 r3]
    norm_num [lerp]
  · unfold sampleTunnelData
    rw [bucketIndex_of_large _ (by norm_num), segmentValue_of_reads _ _ _ _ _ _ r2 r3]
    norm_num [lerp]
  · unfold sampleTunnelData
    rw [bucketIndex_of_neg _ (by norm_num), segmentValue_of_reads _ _ _ _ _ _ r0 r1]
    norm_num [lerp]
  · unfold sampleTunnelData
    rw [bucketIndex_natCast 0 (by norm_num), segmentValue_of_reads _ _ _ _ _ _ r0 r1]
    norm_num [lerp]

/-- Claim C9, as amended: for a hazard field of `4096 * 4` bytes, a channel `c < 4` and
every distance `d`, also outside `[0, 4095]`, the lookup reads only the in-bounds
indices `4i + c` and `4(i + 1) + c` with `i = clamp(floor(d), 0, 4094)`, which is 0 for
`d < 0` and 4094 for `d > 4095`. The interpolation weight `d - i` is not clamped: the
result is `a + (d - i) * (b - a)` for the two bytes `a`, `b` read, the linear
extrapolation of the two end buckets when `d` is out of range. -/
theorem c9_lookup_reads_in_bounds (data : Array ℕ) (c : ℕ) (d : ℚ)
    (hsize : data.size = 4096 * 4) (hc : c < 4) :
    ∃ a b : ℕ, bucketIndex d * 4 + c < data.size ∧ (bucketIndex d + 1) * 4 + c < data.size ∧
      data[bucketIndex d * 4 + c]? = some a ∧
      data[(bucketIndex d + 1) * 4 + c]? = some b ∧
      sampleTunnelData data c d =
        some ((a : ℚ) + (d - (bucketIndex d : ℚ)) * ((b : ℚ) - (a : ℚ))) ∧
      (d < 0 → bucketIndex d = 0) ∧ (4095 < d → bucketIndex d = 4094) := by
  have hi := bucketIndex_le d
  have h1 : bucketIndex d * 4 + c < data.size := by omega
  have h2 : (bucketIndex d + 1) * 4 + c < data.size := by omega
  obtain ⟨a, ha⟩ := read_some data _ h1
  obtain ⟨b, hb⟩ := read_some data _ h2
  refine ⟨a, b, h1, h2, ha, hb, ?_, bucketIndex_of_neg d, fun h => bucketIndex_of_large d (by linarith)⟩
  unfold sampleTunnelData
  rw [segmentValue_of_reads data c _ d a b ha hb]
  unfold lerp
  congr 1
  ring

/-- Claim C9, the amended statement at a concrete lookup: all bytes 7, `d = -1`. -/
theorem c9_lookup_reads_in_bounds_witness :
    (flatData 7).size = 4096 * 4 ∧
      ∃ a b : ℕ, bucketIndex (-1) * 4 + 0 < (flatData 7).size ∧
        (bucketIndex (-1) + 1) * 4 + 0 < (flatData 7).size ∧
        (flatData 7)[bucketIndex (-1) * 4 + 0]? = some a ∧
        (flatData 7)[(bucketIndex (-1) + 1) * 4 + 0]? = some b ∧
        sampleTunnelData (flatData 7) 0 (-1) =
          some ((a : ℚ) + (-1 - (bucketIndex (-1) : ℚ)) * ((b : ℚ) - (a : ℚ))) ∧
        ((-1 : ℚ) < 0 → bucketIndex (-1) = 0) ∧ ((4095 : ℚ) < -1 → bucketIndex (-1) = 4094) :=
  ⟨flatData_size 7,
    c9_lookup_reads_in_bounds (flatData 7) 0 (-1) (flatData_size 7) (by norm_num)⟩

/-! ## C10: the postcondition of `addInfluence` -/

theorem addInfluenceStep_size (d0 d1 strength : ℚ) (param : ℕ) (decay : Bool)
    (p : Array ℚ) (i : ℕ) :
    (addInfluenceStep d0 d1 strength param decay p i).size = p.size := by
  unfold addInfluenceStep
  exact Array.size_modify _ _ _

theorem addInfluenceStep_getElem? (d0 d1 strength : ℚ) (param : ℕ) (decay : Bool)
    (p : Array ℚ) (i j : ℕ) :
    (addInfluenceStep d0 d1 strength param decay p i)[j]? =
      if i * 4 + param = j then
        p[j]?.map (fun old => clamp (old + influenceAt d0 d1 strength decay i) (-1) 1)
      else p[j]? := by
  unfold addInfluenceStep
  exact Array.getElem?_modify

/-- The loop of `addInfluence` over the buckets `s, s + 1, ..., s + n - 1`: entry `j`
is rewritten exactly when it is channel `param` of one of these buckets. -/
theorem addInfluence_loop (d0 d1 strength : ℚ) (param : ℕ) (decay : Bool) (hparam : param < 4)
    (n : ℕ) :
    ∀ (s : ℕ) (p : Array ℚ) (j : ℕ),
      ((List.range' s n).foldl (addInfluenceStep d0 d1 strength param decay) p).size = p.size ∧
      ((List.range' s n).foldl (addInfluenceStep d0 d1 strength param decay) p)[j]? =
        if j % 4 = param ∧ s ≤ j / 4 ∧ j / 4 < s + n then
          p[j]?.map (fun old => clamp (old + influenceAt d0 d1 strength decay (j / 4)) (-1) 1)
        else p[j]? := by
  induction n with
  | zero =>
    intro s p j
    refine ⟨rfl, ?_⟩
    rw [if_neg (by omega)]
    rfl
  | succ n ih =>
    intro s p j
    rw [List.range'_succ, List.foldl_cons]
    obtain ⟨hs, hg⟩ := ih (s + 1) (addInfluenceStep d0 d1 strength param decay p s) j
    refine ⟨by rw [hs, addInfluenceStep_size], ?_⟩
    rw [hg, addInfluenceStep_getElem?]
    by_cases hj : s * 4 + param = j
    · have h4 : j / 4 = s := by omega
      rw [if_neg (by omega), if_pos hj, if_pos (by omega), h4]
    · rw [if_neg hj]
      by_cases hc : j % 4 = param ∧ s + 1 ≤ j / 4 ∧ j / 4 < s + 1 + n
      · rw [if_pos hc, if_pos (by omega)]
      · rw [if_neg hc, if_neg (by omega)]

/-- The bounds of the loop of `addInfluence` select the integer buckets `i < 4096`
with `d0 ≤ i < d1`. -/
theorem addInfluence_range (d0 d1 : ℚ) (i : ℕ) (hi : i < 4096) :
    ((max ⌈d0⌉ 0).toNat ≤ i ∧
        i < (max ⌈d0⌉ 0).toNat + ((min ⌈d1⌉ 4096).toNat - (max ⌈d0⌉ 0).toNat)) ↔
      (d0 ≤ (i : ℚ) ∧ (i : ℚ) < d1) := by
  have c0 : ⌈d0⌉ ≤ (i : ℤ) ↔ d0 ≤ (i : ℚ) := by
    rw [Int.ceil_le]
    norm_cast
  have c1 : (i : ℤ) < ⌈d1⌉ ↔ (i : ℚ) < d1 := by
    rw [Int.lt_ceil]
    norm_cast
  rw [← c0, ← c1]
  omega

theorem influenceAt_decay (d0 d1 strength : ℚ) (i : ℕ) :
    influenceAt d0 d1 strength true i = strength * (1 - ((i : ℚ) - d0) / (d1 - d0)) := by
  unfold influenceAt lerp
  rw [if_pos rfl]
  ring

theorem influenceAt_plain (d0 d1 strength : ℚ) (i : ℕ) :
    influenceAt d0 d1 strength false i = strength := by
  unfold influenceAt
  rw [if_neg (by simp)]

/-- Inside the interval the added amount has the sign of `strength` and at most its
magnitude. -/
theorem influenceAt_sign (d0 d1 strength : ℚ) (decay : Bool) (i : ℕ)
    (h0 : d0 ≤ (i : ℚ)) (h1 : (i : ℚ) < d1) :
    |influenceAt d0 d1 strength decay i| ≤ |strength| ∧
      (0 < strength → 0 < influenceAt d0 d1 strength decay i) ∧
      (strength < 0 → influenceAt d0 d1 strength decay i < 0) := by
  cases decay
  · rw [influenceAt_plain]
    exact ⟨le_refl _, fun h => h, fun h => h⟩
  · rw [influenceAt_decay]
    have hd : 0 < d1 - d0 := by linarith
    have t0 : 0 ≤ ((i : ℚ) - d0) / (d1 - d0) := div_nonneg (by linarith) hd.le
    have t1 : ((i : ℚ) - d0) / (d1 - d0) < 1 := by
      rw [div_lt_one hd]
      linarith
    have w0 : 0 < 1 - ((i : ℚ) - d0) / (d1 - d0) := by linarith
    have w1 : 1 - ((i : ℚ) - d0) / (d1 - d0) ≤ 1 := by linarith
    refine ⟨?_, fun h => mul_pos h w0, fun h => mul_neg_of_neg_of_pos h w0⟩
    rw [abs_mul, abs_of_pos w0]
    exact mul_le_of_le_one_right (abs_nonneg _) w1

theorem zeroParameters_size : zeroParameters.size = 4096 * 4 := by
  simp [zeroParameters]

/-- Claim C10: with `d0 = time / songDuration * L` and
`d1 = (time + duration) / songDuration * L`, `d0 < d1`, on a parameter array of
`4096 * 4` entries and for a channel `param < 4`, `addInfluence` keeps the size of the
array and rewrites exactly the entries `parameters[4i + param]` of the integer buckets
`i < 4096` with `d0 ≤ i < d1`, each to `clamp(old + a_i, -1, 1)`; every other bucket
and every other channel keeps its value. The amount `a_i` is `strength` for a plain
addition and `strength * (1 - (i - d0) / (d1 - d0))` for a decaying one; it has the
sign of `strength` and at most its magnitude. -/
theorem c10_addInfluence_postcondition (songDuration tunnelLength time duration strength : ℚ)
    (param : ℕ) (decay : Bool) (parameters : Array ℚ) (d0 d1 : ℚ)
    (hsize : parameters.size = 4096 * 4) (hparam : param < 4)
    (hd0 : d0 = time / songDuration * tunnelLength)
    (hd1 : d1 = (time + duration) / songDuration * tunnelLength)
    (hd : d0 < d1) :
    (addInfluence songDuration tunnelLength time duration strength param decay
        parameters).size = 4096 * 4 ∧
      (∀ i ch : ℕ, i < 4096 → ch < 4 →
        (addInfluence songDuration tunnelLength time duration strength param decay
            parameters)[i * 4 + ch]? =
          if ch = param ∧ d0 ≤ (i : ℚ) ∧ (i : ℚ) < d1 then
            parameters[i * 4 + ch]?.map
              (fun old => clamp (old + influenceAt d0 d1 strength decay i) (-1) 1)
          else parameters[i * 4 + ch]?) ∧
      (∀ i : ℕ, d0 ≤ (i : ℚ) → (i : ℚ) < d1 →
        influenceAt d0 d1 strength decay i =
            (if decay then strength * (1 - ((i : ℚ) - d0) / (d1 - d0)) else strength) ∧
          |influenceAt d0 d1 strength decay i| ≤ |strength| ∧
          (0 < strength → 0 < influenceAt d0 d1 strength decay i) ∧
          (strength < 0 → influenceAt d0 d1 strength decay i < 0)) := by
  subst hd0 hd1
  refine ⟨?_, ?_, ?_⟩
  · unfold addInfluence
    simp only
    rw [(addInfluence_loop _ _ strength param decay hparam _ _ parameters 0).1, hsize]
  · intro i ch hi hch
    unfold addInfluence
    simp only
    rw [(addInfluence_loop _ _ strength param decay hparam _ _ parameters (i * 4 + ch)).2]
    have hmod : (i * 4 + ch) % 4 = ch := by omega
    have hdiv : (i * 4 + ch) / 4 = i := by omega
    rw [hmod, hdiv]
    have hr := addInfluence_range (time / songDuration * tunnelLength)
      ((time + duration) / songDuration * tunnelLength) i hi
    by_cases hc : ch = param ∧ time / songDuration * tunnelLength ≤ (i : ℚ) ∧
        (i : ℚ) < (time + duration) / songDuration * tunnelLength
    · rw [if_pos hc, if_pos ⟨hc.1, hr.mpr hc.2⟩]
    · rw [if_neg hc, if_neg (fun h => hc ⟨h.1, hr.mp h.2⟩)]
  · intro i h0 h1
    refine ⟨?_, influenceAt_sign _ _ strength decay i h0 h1⟩
    cases decay
    · rw [influenceAt_plain]
      simp
    · rw [influenceAt_decay]
      simp

/-- Claim C10 at a concrete call: a plain addition of strength 1/2 on channel 0 for a
note at time 0 of duration 1, in a song of 10 seconds over a tunnel of 100 metres
(`d0 = 0`, `d1 = 10`); bucket 3 lies in the interval. -/
theorem c10_addInfluence_postcondition_witness :
    zeroParameters.size = 4096 * 4 ∧ (0 : ℚ) < 10 ∧
      (addInfluence 10 100 0 1 (1 / 2) 0 false zeroParameters).size = 4096 * 4 ∧
      (addInfluence 10 100 0 1 (1 / 2) 0 false zeroParameters)[3 * 4 + 0]? =
        if 0 = 0 ∧ (0 : ℚ) ≤ ((3 : ℕ) : ℚ) ∧ ((3 : ℕ) : ℚ) < 10 then
          zeroParameters[3 * 4 + 0]?.map
            (fun old => clamp (old + influenceAt 0 10 (1 / 2) false 3) (-1) 1)
        else zeroParameters[3 * 4 + 0]? :=
  ⟨zeroParameters_size, by norm_num,
    (c10_addInfluence_postcondition 10 100 0 1 (1 / 2) 0 false zeroParameters 0 10
      zeroParameters_size (by norm_num) (by norm_num) (by norm_num) (by norm_num)).1,
    (c10_addInfluence_postcondition 10 100 0 1 (1 / 2) 0 false zeroParameters 0 10
      zeroParameters_size (by norm_num) (by norm_num) (by norm_num) (by norm_num)).2.1
      3 0 (by norm_num) (by norm_num)⟩

/-! ## C11: accumulation of overlapping additions -/

/-- The entry of bucket `i`, channel `ch` after one call of `addInfluence`. -/
theorem addInfluence_entry (songDuration tunnelLength time duration strength : ℚ)
    (param : ℕ) (decay : Bool) (p : Array ℚ) (hparam : param < 4) (i ch : ℕ)
    (hi : i < 4096) (hch : ch < 4) :
    (addInfluence songDuration tunnelLength time duration strength param decay p)[i * 4 + ch]? =
      if ch = param ∧ time / songDuration * tunnelLength ≤ (i : ℚ) ∧
          (i : ℚ) < (time + duration) / songDuration * tunnelLength then
        p[i * 4 + ch]?.map (fun old => clamp (old +
          influenceAt (time / songDuration * tunnelLength)
            ((time + duration) / songDuration * tunnelLength) strength decay i) (-1) 1)
      else p[i * 4 + ch]? := by
  unfold addInfluence
  simp only
  rw [(addInfluence_loop _ _ strength param decay hparam _ _ p (i * 4 + ch)).2]
  have hmod : (i * 4 + ch) % 4 = ch := by omega
  have hdiv : (i * 4 + ch) / 4 = i := by omega
  rw [hmod, hdiv]
  have hr := addInfluence_range (time / songDuration * tunnelLength)
    ((time + duration) / songDuration * tunnelLength) i hi
  by_cases hc : ch = param ∧ time / songDuration * tunnelLength ≤ (i : ℚ) ∧
      (i : ℚ) < (time + duration) / songDuration * tunnelLength
  · rw [if_pos hc, if_pos ⟨hc.1, hr.mpr hc.2⟩]
  · rw [if_neg hc, if_neg (fun h => hc ⟨h.1, hr.mp h.2⟩)]

theorem abs_clamp_le_one (x : ℚ) : |clamp x (-1) 1| ≤ 1 := by
  rw [abs_le]
  exact ⟨lo_le_clamp _ _ _, clamp_le_hi _ _ _ (by norm_num)⟩

theorem clamp_of_nonneg (x : ℚ) (h : 0 ≤ x) : clamp x (-1) 1 = min 1 x := by
  unfold clamp
  exact max_eq_right (le_min (by norm_num) (by linarith))

theorem clamp_of_nonpos (x : ℚ) (h : x ≤ 0) : clamp x (-1) 1 = max (-1) x := by
  unfold clamp
  rw [min_eq_right (by linarith)]

/-- Two additions of the same sign as the starting value compound: the value after
both is at least as large in magnitude as the value after either one alone. -/
theorem accumulate_same_sign (v a1 a2 : ℚ)
    (h : (0 ≤ v ∧ 0 ≤ a1 ∧ 0 ≤ a2) ∨ (v ≤ 0 ∧ a1 ≤ 0 ∧ a2 ≤ 0)) :
    |clamp (v + a1) (-1) 1| ≤ |clamp (clamp (v + a1) (-1) 1 + a2) (-1) 1| ∧
      |clamp (v + a2) (-1) 1| ≤ |clamp (clamp (v + a1) (-1) 1 + a2) (-1) 1| := by
  rcases h with ⟨hv, h1, h2⟩ | ⟨hv, h1, h2⟩
  · have e1 : clamp (v + a1) (-1) 1 = min 1 (v + a1) := clamp_of_nonneg _ (by linarith)
    have e2 : clamp (v + a2) (-1) 1 = min 1 (v + a2) := clamp_of_nonneg _ (by linarith)
    have n1 : 0 ≤ min 1 (v + a1) := le_min (by norm_num) (by linarith)
    have e3 : clamp (min 1 (v + a1) + a2) (-1) 1 = min 1 (min 1 (v + a1) + a2) :=
      clamp_of_nonneg _ (by linarith)
    rw [e1, e2, e3]
    have n2 : 0 ≤ min 1 (v + a2) := le_min (by norm_num) (by linarith)
    have n3 : 0 ≤ min 1 (min 1 (v + a1) + a2) := le_min (by norm_num) (by linarith)
    rw [abs_of_nonneg n1, abs_of_nonneg n2, abs_of_nonneg n3]
    constructor
    · exact le_min (min_le_left _ _) (by linarith)
    · refine le_min (min_le_left _ _) ?_
      rcases le_total 1 (v + a1) with c | c
      · rw [min_eq_left c]
        have := min_le_left 1 (v + a2)
        linarith
      · rw [min_eq_right c]
        have := min_le_right 1 (v + a2)
        linarith
  · have e1 : clamp (v + a1) (-1) 1 = max (-1) (v + a1) := clamp_of_nonpos _ (by linarith)
    have e2 : clamp (v + a2) (-1) 1 = max (-1) (v + a2) := clamp_of_nonpos _ (by linarith)
    have n1 : max (-1) (v + a1) ≤ 0 := max_le (by norm_num) (by linarith)
    have e3 : clamp (max (-1) (v + a1) + a2) (-1) 1 = max (-1) (max (-1) (v + a1) + a2) :=
      clamp_of_nonpos _ (by linarith)
    rw [e1, e2, e3]
    have n2 : max (-1) (v + a2) ≤ 0 := max_le (by norm_num) (by linarith)
    have n3 : max (-1) (max (-1) (v + a1) + a2) ≤ 0 := max_le (by norm_num) (by linarith)
    rw [abs_of_nonpos n1, abs_of_nonpos n2, abs_of_nonpos n3, neg_le_neg_iff, neg_le_neg_iff]
    constructor
    · exact max_le (le_max_left _ _) (by linarith)
    · refine max_le (le_max_left _ _) ?_
      rcases le_total (v + a1) (-1) with c | c
      · rw [max_eq_left c]
        have := le_max_left (-1) (v + a2)
        linarith
      · rw [max_eq_right c]
        have := le_max_right (-1) (v + a2)
        linarith

/-- Inside the interval the added amount is not negative when `strength` is not, and
not positive when `strength` is not. -/
theorem influenceAt_weak_sign (d0 d1 strength : ℚ) (decay : Bool) (i : ℕ)
    (h0 : d0 ≤ (i : ℚ)) (h1 : (i : ℚ) < d1) :
    (0 ≤ strength → 0 ≤ influenceAt d0 d1 strength decay i) ∧
      (strength ≤ 0 → influenceAt d0 d1 strength decay i ≤ 0) := by
  obtain ⟨_, hp, hn⟩ := influenceAt_sign d0 d1 strength decay i h0 h1
  constructor
  · intro h
    rcases eq_or_lt_of_le h with e | l
    · rw [← e]
      cases decay
      · rw [influenceAt_plain]
      · rw [influenceAt_decay]; simp
    · exact (hp l).le
  · intro h
    rcases eq_or_lt_of_le h with e | l
    · rw [e]
      cases decay
      · rw [influenceAt_plain]
      · rw [influenceAt_decay]; simp
    · exact (hn l).le

theorem zeroParameters_getElem? (j : ℕ) (h : j < 4096 * 4) : zeroParameters[j]? = some 0 := by
  unfold zeroParameters
  rw [Array.getElem?_mkArray, if_pos h]

/-- The entry of a covered bucket after one plain call of `addInfluence` in a song of
10 seconds over a tunnel of 100 metres, for a note at time 0 of duration 1. -/
theorem addInfluence_covered_plain (strength : ℚ) (p : Array ℚ) (i : ℕ) (hi : i < 10)
    (v : ℚ) (hv : p[i * 4 + 0]? = some v) :
    (addInfluence 10 100 0 1 strength 0 false p)[i * 4 + 0]? =
      some (clamp (v + strength) (-1) 1) := by
  have hq : (i : ℚ) < 10 := by exact_mod_cast hi
  have h0 : (0 : ℚ) ≤ (i : ℚ) := Nat.cast_nonneg i
  have e0 : (0 : ℚ) / 10 * 100 = 0 := by norm_num
  have e1 : ((0 : ℚ) + 1) / 10 * 100 = 10 := by norm_num
  rw [addInfluence_entry 10 100 0 1 strength 0 false p (by norm_num) i 0 (by omega)
    (by norm_num), e0, e1, if_pos ⟨rfl, h0, hq⟩, hv, Option.map_some', influenceAt_plain]

/-- Claim C11, counterexample: on the rotation channel 0, starting from 0, two plain
additions over the same note window with the strengths 1/2 and -1/2 (the rotation sign
is drawn per note). After the first the value of bucket 3 is 1/2, after both it is 0:
the magnitude after both is smaller than after the first alone. -/
theorem c11_opposite_signs_example :
    (addInfluence 10 100 0 1 (1 / 2) 0 false zeroParameters)[3 * 4 + 0]? = some (1 / 2) ∧
      (addInfluence 10 100 0 1 (-(1 / 2)) 0 false
        (addInfluence 10 100 0 1 (1 / 2) 0 false zeroParameters))[3 * 4 + 0]? = some 0 ∧
      ¬ (|(1 / 2 : ℚ)| ≤ |(0 : ℚ)|) := by
  have h1 : (addInfluence 10 100 0 1 (1 / 2) 0 false zeroParameters)[3 * 4 + 0]? =
      some (1 / 2) := by
    rw [addInfluence_covered_plain (1 / 2) zeroParameters 3 (by norm_num) 0
      (zeroParameters_getElem? _ (by norm_num))]
    norm_num [clamp]
  refine ⟨h1, ?_, by norm_num⟩
  rw [addInfluence_covered_plain (-(1 / 2)) _ 3 (by norm_num) (1 / 2) h1]
  norm_num [clamp]

/-- Claim C11, as amended: for every bucket `i < 4096`, every channel and every
starting value `v`, if two additions both cover the bucket, then the value after both
has magnitude at most 1; and if the starting value and the two strengths are all
`≥ 0`, or all `≤ 0`, its magnitude is at least the magnitude obtained by applying
either addition alone. -/
theorem c11_accumulation (songDuration tunnelLength : ℚ)
    (time1 duration1 strength1 time2 duration2 strength2 : ℚ) (decay1 decay2 : Bool)
    (param i : ℕ) (p : Array ℚ) (v : ℚ)
    (hparam : param < 4) (hi : i < 4096) (hv : p[i * 4 + param]? = some v)
    (hcover1 : time1 / songDuration * tunnelLength ≤ (i : ℚ) ∧
      (i : ℚ) < (time1 + duration1) / songDuration * tunnelLength)
    (hcover2 : time2 / songDuration * tunnelLength ≤ (i : ℚ) ∧
      (i : ℚ) < (time2 + duration2) / songDuration * tunnelLength) :
    ∃ r r1 r2 : ℚ,
      (addInfluence songDuration tunnelLength time2 duration2 strength2 param decay2
        (addInfluence songDuration tunnelLength time1 duration1 strength1 param decay1
          p))[i * 4 + param]? = some r ∧
      (addInfluence songDuration tunnelLength time1 duration1 strength1 param decay1
        p)[i * 4 + param]? = some r1 ∧
      (addInfluence songDuration tunnelLength time2 duration2 strength2 param decay2
        p)[i * 4 + param]? = some r2 ∧
      |r| ≤ 1 ∧
      ((0 ≤ v ∧ 0 ≤ strength1 ∧ 0 ≤ strength2) ∨ (v ≤ 0 ∧ strength1 ≤ 0 ∧ strength2 ≤ 0) →
        |r1| ≤ |r| ∧ |r2| ≤ |r|) := by
  have e1 := addInfluence_entry songDuration tunnelLength time1 duration1 strength1 param
    decay1 p hparam i param hi hparam
  rw [if_pos ⟨rfl, hcover1⟩, hv, Option.map_some'] at e1
  have e2 := addInfluence_entry songDuration tunnelLength time2 duration2 strength2 param
    decay2 p hparam i param hi hparam
  rw [if_pos ⟨rfl, hcover2⟩, hv, Option.map_some'] at e2
  have e12 := addInfluence_entry songDuration tunnelLength time2 duration2 strength2 param
    decay2 (addInfluence songDuration tunnelLength time1 duration1 strength1 param decay1 p)
    hparam i param hi hparam
  rw [if_pos ⟨rfl, hcover2⟩, e1, Option.map_some'] at e12
  refine ⟨_, _, _, e12, e1, e2, abs_clamp_le_one _, ?_⟩
  intro hs
  obtain ⟨p1, n1⟩ := influenceAt_weak_sign _ _ strength1 decay1 i hcover1.1 hcover1.2
  obtain ⟨p2, n2⟩ := influenceAt_weak_sign _ _ strength2 decay2 i hcover2.1 hcover2.2
  apply accumulate_same_sign
  rcases hs with ⟨a, b, c⟩ | ⟨a, b, c⟩
  · exact Or.inl ⟨a, p1 b, p2 c⟩
  · exact Or.inr ⟨a, n1 b, n2 c⟩

/-- Claim C11, the amended statement at two overlapping plain additions of strength
1/2 on channel 2 of bucket 3, starting from 0. -/
theorem c11_accumulation_witness :
    zeroParameters[3 * 4 + 2]? = some 0 ∧
      ∃ r r1 r2 : ℚ,
        (addInfluence 10 100 0 1 (1 / 2) 2 false
          (addInfluence 10 100 0 1 (1 / 2) 2 false zeroParameters))[3 * 4 + 2]? = some r ∧
        (addInfluence 10 100 0 1 (1 / 2) 2 false zeroParameters)[3 * 4 + 2]? = some r1 ∧
        (addInfluence 10 100 0 1 (1 / 2) 2 false zeroParameters)[3 * 4 + 2]? = some r2 ∧
        |r| ≤ 1 ∧
        (((0 : ℚ) ≤ 0 ∧ (0 : ℚ) ≤ 1 / 2 ∧ (0 : ℚ) ≤ 1 / 2) ∨
            ((0 : ℚ) ≤ 0 ∧ (1 / 2 : ℚ) ≤ 0 ∧ (1 / 2 : ℚ) ≤ 0) →
          |r1| ≤ |r| ∧ |r2| ≤ |r|) :=
  ⟨zeroParameters_getElem? _ (by norm_num),
    c11_accumulation 10 100 0 1 (1 / 2) 0 1 (1 / 2) false false 2 3 zeroParameters 0
      (by norm_num) (by norm_num) (zeroParameters_getElem? _ (by norm_num))
      ⟨by norm_num, by norm_num⟩ ⟨by norm_num, by norm_num⟩⟩

/-! ## C12: the end-to-end build scenario -/

theorem ofFn_getElem?_of_lt {α : Type} {n : ℕ} (f : Fin n → α) (i : ℕ) (h : i < n) :
    (Array.ofFn f)[i]? = some (f ⟨i, h⟩) := by
  rw [Array.getElem?_ofFn, dif_pos h]

theorem initialParameters_getElem? (defaultWidth : ℚ) (j : ℕ) (h : j < 4096 * 4) :
    (initialParameters defaultWidth)[j]? =
      some ((if j % 4 > 1 then 1 else 0) * max (2 - (j : ℚ) / 32) (defaultWidth / 64)) := by
  unfold initialParameters
  rw [ofFn_getElem?_of_lt _ j h]

/-- The scenario unfolds to eight calls of `addInfluence`, four per hand, with
`handInfluence = 1/2` because `sin(0 + sin(0)) = 0`. -/
theorem scenario_tracks (o : Oracle) (hsin : o.sin 0 = 0) (p : Array ℚ) :
    buildTracks 10 100 [[{ time := 0, duration := 1 }]]
        (fun _ => some { rotation := 1, size := 1, phaseA := 0, phaseB := 0 }) o p =
      addInfluence 10 100 (0 + 1) 2 (1 * (1 / 2)) (2 + 1) true
        (addInfluence 10 100 0 1 (1 * (1 / 2)) (2 + 1) false
          (addInfluence 10 100 (0 + 1) 2
            (1 * (1 / 2) * (1 - 2 * (if o.flip 0 1 0 then 1 else 0))) 1 true
            (addInfluence 10 100 0 1
              (1 * (1 / 2) * (1 - 2 * (if o.flip 0 1 0 then 1 else 0))) 1 false
              (addInfluence 10 100 (0 + 1) 2 (1 * (1 / 2)) (2 + 0) true
                (addInfluence 10 100 0 1 (1 * (1 / 2)) (2 + 0) false
                  (addInfluence 10 100 (0 + 1) 2
                    (1 * (1 / 2) * (1 - 2 * (if o.flip 0 0 0 then 1 else 0))) 0 true
                    (addInfluence 10 100 0 1
                      (1 * (1 / 2) * (1 - 2 * (if o.flip 0 0 0 then 1 else 0))) 0 false
                      p))))))) := by
  have hh : ∀ side : ℕ, o.sin ((Influence.phase
      { rotation := 1, size := 1, phaseA := 0, phaseB := 0 } side) +
      o.sin ((0 : ℚ) / 5 * o.PI * 2)) / 2 + 1 / 2 = 1 / 2 := by
    intro side
    have e : (0 : ℚ) / 5 * o.PI * 2 = 0 := by ring
    have ph : Influence.phase { rotation := 1, size := 1, phaseA := 0, phaseB := 0 } side = 0 := by
      unfold Influence.phase
      split <;> rfl
    rw [e, hsin, ph, add_zero, hsin]
    norm_num
  simp only [buildTracks, trackStep, trackSide, noteStep, List.enum,
    List.enumFrom, List.foldl, hh]

/-- The two calls made for one channel by the note `{ time: 0, duration: 1 }` of the
scenario: a plain addition over the buckets 0 to 9 and its release tail over the
buckets 10 to 29. -/
theorem note_pair_entry (strength : ℚ) (param : ℕ) (hparam : param < 4) (p : Array ℚ)
    (b ch : ℕ) (hb : b < 4096) (hch : ch < 4) :
    (addInfluence 10 100 (0 + 1) 2 strength param true
        (addInfluence 10 100 0 1 strength param false p))[b * 4 + ch]? =
      if ch = param then
        p[b * 4 + ch]?.map (fun w =>
          if b < 10 then clamp (w + strength) (-1) 1
          else if b < 30 then clamp (w + strength * (1 - ((b : ℚ) - 10) / 20)) (-1) 1
          else w)
      else p[b * 4 + ch]? := by
  have e0 : (0 : ℚ) / 10 * 100 = 0 := by norm_num
  have e1 : ((0 : ℚ) + 1) / 10 * 100 = 10 := by norm_num
  have e2 : ((0 : ℚ) + 1 + 2) / 10 * 100 = 30 := by norm_num
  have h0 : (0 : ℚ) ≤ (b : ℚ) := Nat.cast_nonneg b
  rw [addInfluence_entry 10 100 (0 + 1) 2 strength param true _ hparam b ch hb hch,
    addInfluence_entry 10 100 0 1 strength param false p hparam b ch hb hch, e0, e1, e2]
  by_cases hc : ch = param
  · simp only [hc, true_and, if_true, h0]
    rcases Nat.lt_or_ge b 10 with h10 | h10
    · have q10 : (b : ℚ) < 10 := by exact_mod_cast h10
      rw [if_neg (by intro h; linarith [h.1]), if_pos q10]
      cases hp : p[b * 4 + param]? with
      | none => rfl
      | some w => simp only [Option.map_some', if_pos h10, influenceAt_plain]
    · have q10 : (10 : ℚ) ≤ (b : ℚ) := by exact_mod_cast h10
      rw [if_neg (not_lt.mpr q10)]
      rcases Nat.lt_or_ge b 30 with h30 | h30
      · have q30 : (b : ℚ) < 30 := by exact_mod_cast h30
        rw [if_pos ⟨q10, q30⟩]
        cases hp : p[b * 4 + param]? with
        | none => rfl
        | some w =>
          simp only [Option.map_some', if_neg (not_lt.mpr h10), if_pos h30, influenceAt_decay]
          norm_num
      · have q30 : (30 : ℚ) ≤ (b : ℚ) := by exact_mod_cast h30
        rw [if_neg (by intro h; linarith [h.2])]
        cases hp : p[b * 4 + param]? with
        | none => rfl
        | some w =>
          simp only [Option.map_some', if_neg (not_lt.mpr h10), if_neg (not_lt.mpr h30)]
  · simp only [hc, false_and, if_false]

/-- The entry of bucket `b`, channel `ch` of the scenario, from the initial entry. -/
theorem scenario_entry (defaultWidth : ℚ) (o : Oracle) (hsin : o.sin 0 = 0) (b ch : ℕ)
    (hb : b < 4096) (hch : ch < 4) :
    (scenarioParameters defaultWidth o)[b * 4 + ch]? =
      (initialParameters defaultWidth)[b * 4 + ch]?.map (fun w =>
        if b < 10 then
          clamp (w + (if ch = 0 then 1 * (1 / 2) * (1 - 2 * (if o.flip 0 0 0 then 1 else 0))
            else if ch = 1 then 1 * (1 / 2) * (1 - 2 * (if o.flip 0 1 0 then 1 else 0))
            else 1 * (1 / 2))) (-1) 1
        else if b < 30 then
          clamp (w + (if ch = 0 then 1 * (1 / 2) * (1 - 2 * (if o.flip 0 0 0 then 1 else 0))
            else if ch = 1 then 1 * (1 / 2) * (1 - 2 * (if o.flip 0 1 0 then 1 else 0))
            else 1 * (1 / 2)) * (1 - ((b : ℚ) - 10) / 20)) (-1) 1
        else w) := by
  unfold scenarioParameters buildParameters
  rw [scenario_tracks o hsin,
    note_pair_entry _ (2 + 1) (by norm_num) _ b ch hb hch,
    note_pair_entry _ 1 (by norm_num) _ b ch hb hch,
    note_pair_entry _ (2 + 0) (by norm_num) _ b ch hb hch,
    note_pair_entry _ 0 (by norm_num) _ b ch hb hch]
  cases hp : (initialParameters defaultWidth)[b * 4 + ch]? with
  | none => simp
  | some w =>
    interval_cases ch <;> simp

/-- The rotation amount of a hand in the scenario is 1/2 or -1/2. -/
theorem scenario_rotation (flip : Bool) :
    (1 : ℚ) * (1 / 2) * (1 - 2 * (if flip then 1 else 0)) = 1 / 2 ∨
      (1 : ℚ) * (1 / 2) * (1 - 2 * (if flip then 1 else 0)) = -(1 / 2) := by
  cases flip
  · left; norm_num
  · right; norm_num

theorem clamp_of_abs_le_one (x : ℚ) (h : |x| ≤ 1) : clamp x (-1) 1 = x := by
  rw [abs_le] at h
  unfold clamp
  rw [min_eq_right h.2, max_eq_right h.1]

/-- The rotation entry of hand `side` in bucket `b < 30` of the scenario: the draw
decides its sign, the magnitude is 1/2 in the note window and ramps down along the
release tail, and the initial entry is 0. -/
theorem scenario_rotation_entry (defaultWidth : ℚ) (o : Oracle) (hsin : o.sin 0 = 0)
    (b side : ℕ) (hb : b < 30) (hside : side < 2) :
    ∃ v : ℚ, (scenarioParameters defaultWidth o)[b * 4 + side]? = some v ∧
      (initialParameters defaultWidth)[b * 4 + side]? = some 0 ∧
      |v| = (if b < 10 then 1 / 2 else 1 / 2 * (1 - ((b : ℚ) - 10) / 20)) ∧ v ≠ 0 := by
  have hinit : (initialParameters defaultWidth)[b * 4 + side]? = some 0 := by
    rw [initialParameters_getElem? defaultWidth _ (by omega), if_neg (by omega), zero_mul]
  have hq : (b : ℚ) < 30 := by exact_mod_cast hb
  have hq0 : (0 : ℚ) ≤ (b : ℚ) := Nat.cast_nonneg b
  have key : ∀ r : ℚ, (r = 1 / 2 ∨ r = -(1 / 2)) →
      ∃ v : ℚ, (if b < 10 then clamp (0 + r) (-1) 1
          else if b < 30 then clamp (0 + r * (1 - ((b : ℚ) - 10) / 20)) (-1) 1 else 0) = v ∧
        |v| = (if b < 10 then 1 / 2 else 1 / 2 * (1 - ((b : ℚ) - 10) / 20)) ∧ v ≠ 0 := by
    intro r hr
    have habs : |r| = 1 / 2 := by
      rcases hr with e | e <;> rw [e] <;> norm_num [abs_of_pos, abs_of_neg]
    refine ⟨_, rfl, ?_⟩
    rcases Nat.lt_or_ge b 10 with h10 | h10
    · rw [if_pos h10, if_pos h10, zero_add, clamp_of_abs_le_one r (by rw [habs]; norm_num)]
      refine ⟨habs, ?_⟩
      intro h0
      rw [h0] at habs
      norm_num at habs
    · have q10 : (10 : ℚ) ≤ (b : ℚ) := by exact_mod_cast h10
      have w0 : 0 < 1 - ((b : ℚ) - 10) / 20 := by linarith
      have w1 : 1 - ((b : ℚ) - 10) / 20 ≤ 1 := by linarith
      have hv : |r * (1 - ((b : ℚ) - 10) / 20)| = 1 / 2 * (1 - ((b : ℚ) - 10) / 20) := by
        rw [abs_mul, habs, abs_of_pos w0]
      rw [if_neg (not_lt.mpr h10), if_neg (not_lt.mpr h10), if_pos hb, zero_add,
        clamp_of_abs_le_one _ (by rw [hv]; nlinarith)]
      refine ⟨hv, ?_⟩
      intro h0
      rw [h0, abs_zero] at hv
      linarith
  rw [scenario_entry defaultWidth o hsin b side (by omega) (by omega), hinit, Option.map_some']
  interval_cases side
  · obtain ⟨v, e, a, n⟩ := key _ (scenario_rotation (o.flip 0 0 0))
    refine ⟨v, ?_, rfl, a, n⟩
    rw [← e]
    simp
  · obtain ⟨v, e, a, n⟩ := key _ (scenario_rotation (o.flip 0 1 0))
    refine ⟨v, ?_, rfl, a, n⟩
    rw [← e]
    simp

/-- Claim C12, counterexample: bucket 15 (distance 15, outside `[0, 10]`) does not keep
its default rotation 0. The release tail of the note runs over the distances 10 to 30,
and the rotation entry of hand A in bucket 15 is 3/8 when the draw keeps the sign and
-3/8 when it flips it. -/
theorem c12_release_tail_example :
    (scenarioParameters 64 (scenarioOracle false))[15 * 4 + 0]? = some (3 / 8) ∧
      (scenarioParameters 64 (scenarioOracle true))[15 * 4 + 0]? = some (-(3 / 8) : ℚ) ∧
      (initialParameters 64)[15 * 4 + 0]? = some 0 ∧
      (3 / 8 : ℚ) ≠ 0 ∧ (-(3 / 8) : ℚ) ≠ 0 := by
  have hinit : (initialParameters 64)[15 * 4 + 0]? = some 0 := by
    rw [initialParameters_getElem? 64 _ (by norm_num)]
    norm_num
  refine ⟨?_, ?_, hinit, by norm_num, by norm_num⟩
  · rw [scenario_entry 64 (scenarioOracle false) rfl 15 0 (by norm_num) (by norm_num), hinit]
    norm_num [scenarioOracle, clamp]
  · rw [scenario_entry 64 (scenarioOracle true) rfl 15 0 (by norm_num) (by norm_num), hinit]
    norm_num [scenarioOracle, clamp]

/-- Claim C12, as amended: in the scenario (song of 10 seconds, one note
`{ time: 0, duration: 1 }`, curve of 100 metres, influence `[1, 1, 0, 0]`), for either
outcome of each rotation draw, the built array differs from the initial one in every
bucket with distance in `[0, 30)`, the note window `[0, 10)` followed by the release
tail `[10, 30)`: the rotation entry of each hand is not 0, of magnitude 1/2 in the
window and `1/2 * (1 - (b - 10) / 20)` on the tail, and the width entry is
`clamp(default + that magnitude, -1, 1)`. Every bucket from 30 on keeps its default
values. -/
theorem c12_scenario_build (defaultWidth : ℚ) (o : Oracle) (hsin : o.sin 0 = 0) :
    (∀ b side : ℕ, b < 30 → side < 2 →
      ∃ v : ℚ, (scenarioParameters defaultWidth o)[b * 4 + side]? = some v ∧
        (initialParameters defaultWidth)[b * 4 + side]? = some 0 ∧
        |v| = (if b < 10 then 1 / 2 else 1 / 2 * (1 - ((b : ℚ) - 10) / 20)) ∧ v ≠ 0) ∧
      (∀ b side : ℕ, b < 30 → side < 2 →
        (scenarioParameters defaultWidth o)[b * 4 + (2 + side)]? =
          (initialParameters defaultWidth)[b * 4 + (2 + side)]?.map (fun w =>
            clamp (w + (if b < 10 then 1 / 2 else 1 / 2 * (1 - ((b : ℚ) - 10) / 20)))
              (-1) 1)) ∧
      (∀ b ch : ℕ, 30 ≤ b → b < 4096 → ch < 4 →
        (scenarioParameters defaultWidth o)[b * 4 + ch]? =
          (initialParameters defaultWidth)[b * 4 + ch]?) := by
  refine ⟨fun b side hb hside => scenario_rotation_entry defaultWidth o hsin b side hb hside,
    ?_, ?_⟩
  · intro b side hb hside
    rw [scenario_entry defaultWidth o hsin b (2 + side) (by omega) (by omega)]
    cases hp : (initialParameters defaultWidth)[b * 4 + (2 + side)]? with
    | none => rfl
    | some w =>
      have c0 : ¬ (2 + side = 0) := by omega
      have c1 : ¬ (2 + side = 1) := by omega
      simp only [Option.map_some', c0, c1, if_false]
      rcases Nat.lt_or_ge b 10 with h10 | h10
      · simp only [h10, if_true]
        norm_num
      · simp only [not_lt.mpr h10, if_false, hb, if_true]
        norm_num
  · intro b ch h30 hb hch
    rw [scenario_entry defaultWidth o hsin b ch hb hch]
    cases hp : (initialParameters defaultWidth)[b * 4 + ch]? with
    | none => rfl
    | some w =>
      rw [Option.map_some', if_neg (by omega), if_neg (by omega)]

/-- Claim C12, the amended statement at a concrete build: default width 64, no sign
flips; the rotation entry of hand A in bucket 15 and the entries of bucket 30. -/
theorem c12_scenario_build_witness :
    (scenarioOracle false).sin 0 = 0 ∧
      (∃ v : ℚ, (scenarioParameters 64 (scenarioOracle false))[15 * 4 + 0]? = some v ∧
        (initialParameters 64)[15 * 4 + 0]? = some 0 ∧
        |v| = (if 15 < 10 then 1 / 2 else 1 / 2 * (1 - (((15 : ℕ) : ℚ) - 10) / 20)) ∧ v ≠ 0) ∧
      (scenarioParameters 64 (scenarioOracle false))[30 * 4 + 2]? =
        (initialParameters 64)[30 * 4 + 2]? :=
  ⟨rfl,
    (c12_scenario_build 64 (scenarioOracle false) rfl).1 15 0 (by norm_num) (by norm_num),
    (c12_scenario_build 64 (scenarioOracle false) rfl).2.2 30 2 (by norm_num) (by norm_num)
      (by norm_num)⟩

/-! ## The compared value and the distance on the circle, in exact arithmetic -/

theorem jsRem_one_bounds_of_neg (x : ℚ) (hx : x < 0) :
    -1 < jsRem x 1 ∧ jsRem x 1 ≤ 0 := by
  unfold jsRem trunc
  rw [div_one, if_neg (not_le.mpr hx), one_mul]
  have h1 := Int.ceil_lt_add_one x
  have h2 := Int.le_ceil x
  constructor <;> linarith

theorem wrappedDistance_le_half (a b : ℚ) : wrappedDistance a b ≤ 1 / 2 := by
  unfold wrappedDistance
  rcases le_total (Int.fract (a - b)) (1 / 2) with h | h
  · exact le_trans (min_le_left _ _) h
  · exact le_trans (min_le_right _ _) (by linarith)

/-- The value the code compares with the half width is never below the distance on
the circle. -/
theorem wrappedDistance_le_code_value (a b : ℚ) :
    wrappedDistance a b ≤ |jsRem (a - b + 1 / 2) 1 - 1 / 2| := by
  rcases le_or_lt 0 (a - b + 1 / 2) with h | h
  · rw [abs_rem_eq_wrappedDistance a b h]
  · obtain ⟨_, h2⟩ := jsRem_one_bounds_of_neg _ h
    rw [abs_of_nonpos (by linarith)]
    have := wrappedDistance_le_half a b
    linarith

/-! ## C14: the quantization formula -/

/-- Rounding and clamping to the byte range commute. -/
theorem clamp_round_comm (raw : ℚ) :
    clamp (round raw) 0 255 = round (clamp raw 0 255) := by
  unfold clamp round
  rcases lt_or_le raw 0 with h | h
  · have hf : ⌊raw + 1 / 2⌋ ≤ 0 := by
      have : ⌊raw + 1 / 2⌋ < 1 := by
        rw [Int.floor_lt]
        push_cast
        linarith
      omega
    rw [min_eq_right (by linarith : raw ≤ 255), max_eq_left h.le,
      min_eq_right (by omega), max_eq_left hf]
    symm
    rw [Int.floor_eq_iff]
    constructor <;> norm_num
  · rcases le_or_lt raw 255 with h2 | h2
    · have hf0 : 0 ≤ ⌊raw + 1 / 2⌋ := by
        rw [Int.le_floor]
        push_cast
        linarith
      have hf1 : ⌊raw + 1 / 2⌋ ≤ 255 := by
        have : ⌊raw + 1 / 2⌋ < 256 := by
          rw [Int.floor_lt]
          push_cast
          linarith
        omega
      rw [min_eq_right h2, max_eq_right h, min_eq_right hf1, max_eq_right hf0]
    · have hf : 255 ≤ ⌊raw + 1 / 2⌋ := by
        rw [Int.le_floor]
        push_cast
        linarith
      rw [min_eq_left h2.le, max_eq_right (by norm_num : (0 : ℚ) ≤ 255), min_eq_left hf,
        max_eq_right (by norm_num)]
      symm
      rw [Int.floor_eq_iff]
      constructor <;> norm_num

/-- The sum with boolean factors of the source selects the raw value of the channel
`i % 4`. -/
theorem rawChannelValue_eq_spec (minWidth : ℚ) (i : ℕ) (v : ℚ) :
    rawChannelValue minWidth i v = specRawChannelValue minWidth (i % 4) v := by
  unfold rawChannelValue specRawChannelValue
  have h4 : i % 4 < 4 := Nat.mod_lt _ (by norm_num)
  by_cases h0 : i % 4 = 0
  · rw [if_pos h0, if_neg (by omega), if_neg (by omega), if_pos h0]
    ring
  · by_cases h1 : i % 4 = 1
    · rw [if_neg h0, if_pos h1, if_neg (by omega), if_neg h0, if_pos h1]
      ring
    · rw [if_neg h0, if_neg h1, if_pos (by omega), if_neg h0, if_neg h1]
      ring

/-- Claim C14: for every accumulated value `v`, every `minWidth` and every index `i`,
the byte the code stores, `clamp(round(raw), 0, 255)`, equals the byte of the
specification, `round(clamp(raw, 0, 255))`, where `raw` is
`64 + clamp(v, -0.7, 0.7) * 64` for channel 0, `192 - clamp(v, -0.7, 0.7) * 64` for
channel 1 and `clamp(v * 64, minWidth, 64)` for the channels 2 and 3, and `round` rounds
half up. -/
theorem c14_quantize_eq_spec (minWidth : ℚ) (i : ℕ) (v : ℚ) :
    quantize minWidth i v = specByte minWidth i v := by
  unfold quantize specByte
  rw [rawChannelValue_eq_spec, clamp_round_comm]

/-! ## C15: the curve lookup -/

/-- The index read by `lerpParam` never reaches the last segment: with at least two
segments, `i + 1` is at most `segments - 1`, so the last sample `p[segments]` is never
read. -/
theorem lerpParam_index_le (length t : ℚ) (h2 : 2 ≤ ⌊length⌋) :
    ((clamp ⌊t⌋ 0 (⌊length⌋ - 2)).toNat : ℤ) + 1 ≤ ⌊length⌋ - 1 := by
  have h := clamp_le_hi ⌊t⌋ 0 (⌊length⌋ - 2) (by omega)
  have h0 := lo_le_clamp ⌊t⌋ 0 (⌊length⌋ - 2)
  omega

/-- Claim C15, the code at the end of the curve: for a curve of length 5/2 (two
segments, three samples) that turns a corner, `lerpParam` at `u = L` reads the samples
0 and 1 with the weight 2 and returns the extrapolated point `(2, 0, 0)`, not the
last sample `(1, 1, 0)`. -/
theorem c15_end_of_curve_example :
    lerpParam (5 / 2) cornerSamples (5 / 2) = some { x := 2, y := 0, z := 0 } ∧
      cornerSamples[2]? = some { x := 1, y := 1, z := 0 } ∧
      ({ x := 2, y := 0, z := 0 } : Vector3) ≠ { x := 1, y := 1, z := 0 } := by
  refine ⟨?_, rfl, ?_⟩
  · have hs : ⌊(5 / 2 : ℚ)⌋ = 2 := by
      rw [Int.floor_eq_iff]
      constructor <;> norm_num
    have ht : (5 / 2 : ℚ) / (5 / 2) * ((2 : ℤ) : ℚ) = 2 := by norm_num
    have hf : ⌊(2 : ℚ)⌋ = 2 := by
      rw [Int.floor_eq_iff]
      constructor <;> norm_num
    have hi : (clamp (2 : ℤ) 0 (2 - 2)).toNat = 0 := by
      unfold clamp
      rfl
    have r0 : cornerSamples[0]? = some { x := 0, y := 0, z := 0 } := rfl
    have r1 : cornerSamples[0 + 1]? = some { x := 1, y := 0, z := 0 } := rfl
    unfold lerpParam
    simp only [hs, ht, hf, hi, r0, r1]
    norm_num [Vector3.lerp]
  · intro h
    have hx := congrArg Vector3.x h
    norm_num at hx

/-! ## Double arithmetic: rounding and its error -/

theorem abs_roundHalfEven_sub_le (y : ℚ) : |(roundHalfEven y : ℚ) - y| ≤ 1 / 2 := by
  have h0 := Int.floor_le y
  have h1 := Int.lt_floor_add_one y
  unfold roundHalfEven
  rw [abs_le]
  split_ifs <;> push_cast <;> constructor <;> linarith

theorem roundHalfEven_intCast (n : ℤ) : roundHalfEven (n : ℚ) = n := by
  unfold roundHalfEven
  rw [Int.floor_intCast, sub_self, if_pos (by norm_num)]

theorem roundHalfEven_eq_of_near (y : ℚ) (m : ℤ) (h1 : (m : ℚ) - 1 / 2 < y)
    (h2 : y < (m : ℚ) + 1 / 2) : roundHalfEven y = m := by
  have e := abs_roundHalfEven_sub_le y
  rw [abs_le] at e
  have a : ((roundHalfEven y : ℤ) : ℚ) < (m : ℚ) + 1 := by linarith [e.2]
  have b : (m : ℚ) - 1 < ((roundHalfEven y : ℤ) : ℚ) := by linarith [e.1]
  have a2 : roundHalfEven y < m + 1 := by exact_mod_cast a
  have b2 : m - 1 < roundHalfEven y := by exact_mod_cast b
  omega

theorem le_roundHalfEven (y : ℚ) (n : ℤ) (h : (n : ℚ) ≤ y) : n ≤ roundHalfEven y := by
  have hf : n ≤ ⌊y⌋ := Int.le_floor.mpr h
  unfold roundHalfEven
  split_ifs <;> omega

theorem roundHalfEven_le (y : ℚ) (n : ℤ) (h : y ≤ (n : ℚ)) : roundHalfEven y ≤ n := by
  have hf : ⌊y⌋ ≤ n := by
    have := Int.floor_le y
    have : ((⌊y⌋ : ℤ) : ℚ) ≤ (n : ℚ) := by linarith
    exact_mod_cast this
  unfold roundHalfEven
  by_cases h1 : y - (⌊y⌋ : ℚ) < 1 / 2
  · rw [if_pos h1]; exact hf
  · have hlt : ((⌊y⌋ : ℤ) : ℚ) < (n : ℚ) := by linarith
    have hlt2 : ⌊y⌋ < n := by exact_mod_cast hlt
    rw [if_neg h1]
    split_ifs <;> omega

theorem log_two_eq (r : ℚ) (e : ℤ) (h1 : (2 : ℚ) ^ e ≤ r) (h2 : r < (2 : ℚ) ^ (e + 1)) :
    Int.log 2 r = e := by
  have hr : 0 < r := lt_of_lt_of_le (zpow_pos (by norm_num) e) h1
  have a : e ≤ Int.log 2 r := by
    rw [← Int.zpow_le_iff_le_log (by norm_num) hr]
    exact_mod_cast h1
  have b : Int.log 2 r < e + 1 := by
    rw [← Int.lt_zpow_iff_log_lt (by norm_num) hr]
    exact_mod_cast h2
  omega

theorem toDouble_eq (x : ℚ) (e m : ℤ) (h1 : (2 : ℚ) ^ e ≤ |x|) (h2 : |x| < (2 : ℚ) ^ (e + 1))
    (hm : roundHalfEven (x / 2 ^ (e - 52)) = m) : toDouble x = (m : ℚ) * 2 ^ (e - 52) := by
  have hx : x ≠ 0 := by
    intro h
    rw [h, abs_zero] at h1
    exact absurd h1 (not_le.mpr (zpow_pos (by norm_num) e))
  unfold toDouble
  rw [if_neg hx, log_two_eq |x| e h1 h2, hm]

theorem abs_toDouble_sub_le (x : ℚ) : |toDouble x - x| ≤ |x| / 2 ^ 53 := by
  unfold toDouble
  by_cases hx : x = 0
  · rw [if_pos hx, hx]; norm_num
  · rw [if_neg hx]
    have hpos : 0 < |x| := abs_pos.mpr hx
    have hlow : (2 : ℚ) ^ Int.log 2 |x| ≤ |x| := by
      have := Int.zpow_log_le_self (b := 2) (by norm_num) hpos
      exact_mod_cast this
    set e := Int.log 2 |x| with he
    have hq : (0 : ℚ) < 2 ^ (e - 52) := zpow_pos (by norm_num) _
    have hr := abs_roundHalfEven_sub_le (x / 2 ^ (e - 52))
    have e1 : (roundHalfEven (x / 2 ^ (e - 52)) : ℚ) * 2 ^ (e - 52) - x =
        ((roundHalfEven (x / 2 ^ (e - 52)) : ℚ) - x / 2 ^ (e - 52)) * 2 ^ (e - 52) := by
      field_simp
    rw [e1, abs_mul, abs_of_pos hq]
    have e2 : (2 : ℚ) ^ (e - 52) = 2 ^ e / 2 ^ 52 := by
      rw [zpow_sub₀ (by norm_num)]
      norm_num
    calc |(roundHalfEven (x / 2 ^ (e - 52)) : ℚ) - x / 2 ^ (e - 52)| * 2 ^ (e - 52)
        ≤ 1 / 2 * 2 ^ (e - 52) := mul_le_mul_of_nonneg_right hr hq.le
      _ = 2 ^ e / 2 ^ 53 := by rw [e2]; ring
      _ ≤ |x| / 2 ^ 53 := div_le_div_of_nonneg_right hlow (by norm_num)

theorem toDouble_zero : toDouble 0 = 0 := by
  unfold toDouble
  rw [if_pos rfl]

theorem toDouble_half : toDouble (1 / 2) = 1 / 2 := by
  rw [toDouble_eq (1 / 2) (-1) (2 ^ 52) (by norm_num [abs_of_pos]) (by norm_num [abs_of_pos])
    (by norm_num [roundHalfEven])]
  norm_num

theorem toDouble_one : toDouble 1 = 1 := by
  rw [toDouble_eq 1 0 (2 ^ 52) (by norm_num) (by norm_num) (by norm_num [roundHalfEven])]
  norm_num

theorem toDouble_three_halves : toDouble (3 / 2) = 3 / 2 := by
  rw [toDouble_eq (3 / 2) 0 (3 * 2 ^ 51) (by norm_num [abs_of_pos]) (by norm_num [abs_of_pos])
    (by norm_num [roundHalfEven])]
  norm_num

/-- Rounding keeps a value of `[1/4, 5/4]` in `[1/4, 5/4]`. -/
theorem toDouble_mem_range (y : ℚ) (h0 : 1 / 4 ≤ y) (h1 : y ≤ 5 / 4) :
    1 / 4 ≤ toDouble y ∧ toDouble y ≤ 5 / 4 := by
  have hy : 0 < y := by linarith
  have habs : |y| = y := abs_of_pos hy
  have hlow : (2 : ℚ) ^ Int.log 2 |y| ≤ |y| := by
    have := Int.zpow_log_le_self (b := 2) (r := |y|) (by norm_num) (by rw [habs]; exact hy)
    exact_mod_cast this
  have hup : |y| < (2 : ℚ) ^ (Int.log 2 |y| + 1) := by
    have := Int.lt_zpow_succ_log_self (b := 2) (by norm_num) |y|
    exact_mod_cast this
  rw [habs] at hlow hup
  have hy0 : y ≠ 0 := hy.ne'
  have gl : -2 ≤ Int.log 2 |y| := by
    rw [habs]
    have : (2 : ℚ) ^ (-2 : ℤ) < 2 ^ (Int.log 2 y + 1) := by
      have e : (2 : ℚ) ^ (-2 : ℤ) = 1 / 4 := by norm_num
      rw [e]; linarith
    rw [zpow_lt_zpow_iff_right₀ (by norm_num)] at this
    omega
  have gu : Int.log 2 |y| ≤ 0 := by
    rw [habs]
    have : (2 : ℚ) ^ (Int.log 2 y) < 2 ^ (1 : ℤ) := by
      have e : (2 : ℚ) ^ (1 : ℤ) = 2 := by norm_num
      rw [e]; linarith
    rw [zpow_lt_zpow_iff_right₀ (by norm_num)] at this
    omega
  unfold toDouble
  rw [if_neg hy0]
  rw [habs] at gl gu ⊢
  generalize Int.log 2 y = e at hlow hup gl gu
  have he : e = -2 ∨ e = -1 ∨ e = 0 := by omega
  rcases he with rfl | rfl | rfl
  · have q : (2 : ℚ) ^ ((-2 : ℤ) - 52) = 1 / 2 ^ 54 := by norm_num
    have c1 : (2 : ℚ) ^ (-2 : ℤ) = 1 / 4 := by norm_num
    have c2 : (2 : ℚ) ^ ((-2 : ℤ) + 1) = 1 / 2 := by norm_num
    rw [c1] at hlow
    rw [c2] at hup
    rw [q]
    have a := le_roundHalfEven (y / (1 / 2 ^ 54)) (2 ^ 52) (by
      rw [le_div_iff₀ (by norm_num)]; push_cast; linarith)
    have b := roundHalfEven_le (y / (1 / 2 ^ 54)) (2 ^ 53) (by
      rw [div_le_iff₀ (by norm_num)]; push_cast; linarith)
    have a2 : ((2 ^ 52 : ℤ) : ℚ) ≤ (roundHalfEven (y / (1 / 2 ^ 54)) : ℚ) := by exact_mod_cast a
    have b2 : (roundHalfEven (y / (1 / 2 ^ 54)) : ℚ) ≤ ((2 ^ 53 : ℤ) : ℚ) := by exact_mod_cast b
    push_cast at a2 b2
    constructor <;> nlinarith
  · have q : (2 : ℚ) ^ ((-1 : ℤ) - 52) = 1 / 2 ^ 53 := by norm_num
    have c1 : (2 : ℚ) ^ (-1 : ℤ) = 1 / 2 := by norm_num
    have c2 : (2 : ℚ) ^ ((-1 : ℤ) + 1) = 1 := by norm_num
    rw [c1] at hlow
    rw [c2] at hup
    rw [q]
    have a := le_roundHalfEven (y / (1 / 2 ^ 53)) (2 ^ 52) (by
      rw [le_div_iff₀ (by norm_num)]; push_cast; linarith)
    have b := roundHalfEven_le (y / (1 / 2 ^ 53)) (2 ^ 53) (by
      rw [div_le_iff₀ (by norm_num)]; push_cast; linarith)
    have a2 : ((2 ^ 52 : ℤ) : ℚ) ≤ (roundHalfEven (y / (1 / 2 ^ 53)) : ℚ) := by exact_mod_cast a
    have b2 : (roundHalfEven (y / (1 / 2 ^ 53)) : ℚ) ≤ ((2 ^ 53 : ℤ) : ℚ) := by exact_mod_cast b
    push_cast at a2 b2
    constructor <;> nlinarith
  · have q : (2 : ℚ) ^ ((0 : ℤ) - 52) = 1 / 2 ^ 52 := by norm_num
    have c1 : (2 : ℚ) ^ (0 : ℤ) = 1 := by norm_num
    rw [c1] at hlow
    rw [q]
    have a := le_roundHalfEven (y / (1 / 2 ^ 52)) (2 ^ 52) (by
      rw [le_div_iff₀ (by norm_num)]; push_cast; linarith)
    have b := roundHalfEven_le (y / (1 / 2 ^ 52)) (5 * 2 ^ 50) (by
      rw [div_le_iff₀ (by norm_num)]; push_cast; linarith)
    have a2 : ((2 ^ 52 : ℤ) : ℚ) ≤ (roundHalfEven (y / (1 / 2 ^ 52)) : ℚ) := by exact_mod_cast a
    have b2 : (roundHalfEven (y / (1 / 2 ^ 52)) : ℚ) ≤ ((5 * 2 ^ 50 : ℤ) : ℚ) := by
      exact_mod_cast b
    push_cast at a2 b2
    constructor <;> nlinarith

theorem wrappedDistance_le_abs_sub_int (a b : ℚ) (n : ℤ) :
    wrappedDistance a b ≤ |a - b - (n : ℚ)| := by
  unfold wrappedDistance
  have h0 := Int.fract_nonneg (a - b)
  have h1 := Int.fract_lt_one (a - b)
  have hdef : a - b = (⌊a - b⌋ : ℚ) + Int.fract (a - b) := (Int.floor_add_fract (a - b)).symm
  rcases le_or_lt n ⌊a - b⌋ with h | h
  · have hq : (n : ℚ) ≤ (⌊a - b⌋ : ℚ) := by exact_mod_cast h
    rw [abs_of_nonneg (by linarith)]
    exact le_trans (min_le_left _ _) (by linarith)
  · have hq : ((⌊a - b⌋ : ℤ) : ℚ) + 1 ≤ (n : ℚ) := by exact_mod_cast h
    rw [abs_of_nonpos (by linarith)]
    exact le_trans (min_le_right _ _) (by linarith)

theorem wrappedDistance_eq_abs_sub_int (a b : ℚ) :
    ∃ n : ℤ, wrappedDistance a b = |a - b - (n : ℚ)| := by
  unfold wrappedDistance
  have h0 := Int.fract_nonneg (a - b)
  have h1 := Int.fract_lt_one (a - b)
  have hdef : a - b = (⌊a - b⌋ : ℚ) + Int.fract (a - b) := (Int.floor_add_fract (a - b)).symm
  rcases le_total (Int.fract (a - b)) (1 / 2) with h | h
  · refine ⟨⌊a - b⌋, ?_⟩
    rw [min_eq_left (by linarith), abs_of_nonneg (by linarith)]
    linarith
  · refine ⟨⌊a - b⌋ + 1, ?_⟩
    rw [min_eq_right (by linarith), abs_of_nonpos (by push_cast; linarith)]
    push_cast
    linarith

/-- The distance on the circle changes by at most the change of an angle. -/
theorem wrappedDistance_lipschitz (a a2 b : ℚ) :
    wrappedDistance a b ≤ wrappedDistance a2 b + |a - a2| := by
  obtain ⟨n, hn⟩ := wrappedDistance_eq_abs_sub_int a2 b
  have h := wrappedDistance_le_abs_sub_int a b n
  have e : a - b - (n : ℚ) = (a2 - b - (n : ℚ)) + (a - a2) := by ring
  rw [e] at h
  have := abs_add (a2 - b - (n : ℚ)) (a - a2)
  rw [hn]
  linarith

/-- The last two steps of the lane expression, for a rounded dividend `s1` close to the
exact dividend `a - b + 1/2`. -/
theorem laneValue_core (a b s1 ε : ℚ) (hε : 0 < ε) (hε1 : ε ≤ 1 / 16)
    (hx : -(1 / 4) ≤ a - b + 1 / 2)
    (hs1 : |s1 - (a - b + 1 / 2)| ≤ 13 / 4 * ε)
    (key : ∀ w : ℚ, |w| ≤ 1 → |w| - ε ≤ |toDouble w| ∧ |toDouble w| ≤ |w| + ε) :
    wrappedDistance a b - 5 * ε ≤ |toDouble (jsRem s1 1 - 1 / 2)| ∧
      (0 ≤ a - b + 1 / 2 → |toDouble (jsRem s1 1 - 1 / 2)| ≤ wrappedDistance a b + 5 * ε) := by
  have hs1c := abs_le.mp hs1
  have hwd := wrappedDistance_le_half a b
  rcases le_or_lt 0 s1 with hs | hs
  · have e : s1 - 1 / 2 + b - b + 1 / 2 = s1 := by ring
    have hw : |jsRem s1 1 - 1 / 2| = wrappedDistance (s1 - 1 / 2 + b) b := by
      have := abs_rem_eq_wrappedDistance (s1 - 1 / 2 + b) b (by rw [e]; exact hs)
      rw [e] at this
      exact this
    have hle : |jsRem s1 1 - 1 / 2| ≤ 1 := by
      rw [hw]
      linarith [wrappedDistance_le_half (s1 - 1 / 2 + b) b]
    obtain ⟨k1, k2⟩ := key _ hle
    rw [hw] at k1 k2
    have hdiff : |a - (s1 - 1 / 2 + b)| ≤ 13 / 4 * ε := by
      rw [abs_le]; constructor <;> linarith [hs1c.1, hs1c.2]
    have hdiff2 : |s1 - 1 / 2 + b - a| ≤ 13 / 4 * ε := by
      rw [abs_le]; constructor <;> linarith [hs1c.1, hs1c.2]
    have l1 := wrappedDistance_lipschitz a (s1 - 1 / 2 + b) b
    have l2 := wrappedDistance_lipschitz (s1 - 1 / 2 + b) a b
    constructor
    · linarith
    · intro _
      linarith
  · have hgt : -1 < s1 := by linarith [hs1c.1]
    have hr : jsRem s1 1 = s1 := jsRem_one_of_neg s1 hs hgt
    have hw : |jsRem s1 1 - 1 / 2| = 1 / 2 - s1 := by
      rw [hr, abs_of_nonpos (by linarith)]
      ring
    have hle : |jsRem s1 1 - 1 / 2| ≤ 1 := by
      rw [hw]; linarith [hs1c.1]
    obtain ⟨k1, k2⟩ := key _ hle
    rw [hw] at k1 k2
    constructor
    · linarith
    · intro hx0
      have hx1 : a - b + 1 / 2 < 1 := by linarith [hs1c.2]
      have hwd2 : wrappedDistance a b = 1 / 2 - (a - b + 1 / 2) := by
        rw [← abs_rem_eq_wrappedDistance a b hx0, jsRem_one_of_nonneg _ hx0,
          Int.fract_eq_self.mpr ⟨hx0, hx1⟩, abs_of_nonpos (by linarith [hs1c.2])]
        ring
      rw [hwd2]
      linarith [hs1c.1]

/-- The value the code computes in doubles differs from the distance on the circle by
at most `5 / 2^53`, from below always and from above when the dividend of the
remainder is not negative. -/
theorem laneValueDouble_bounds (ha ca : ℚ) (h0 : 1 / 4 ≤ ha) (h1 : ha ≤ 5 / 4)
    (hc0 : 0 ≤ ca) (hc1 : ca ≤ 1) :
    wrappedDistance ha ca - 5 / 2 ^ 53 ≤ laneValueDouble ha ca ∧
      (0 ≤ ha - ca + 1 / 2 → laneValueDouble ha ca ≤ wrappedDistance ha ca + 5 / 2 ^ 53) := by
  have hε : (0 : ℚ) < 1 / 2 ^ 53 := by norm_num
  have hε1 : (1 : ℚ) / 2 ^ 53 ≤ 1 / 16 := by norm_num
  have conv : ∀ z : ℚ, z / 2 ^ 53 = z * (1 / 2 ^ 53) := by
    intro z; ring
  have hd : |ha - ca| ≤ 5 / 4 := by rw [abs_le]; constructor <;> linarith
  have E1 := abs_toDouble_sub_le (ha - ca)
  rw [conv] at E1
  have E1b : |toDouble (ha - ca) - (ha - ca)| ≤ 5 / 4 * (1 / 2 ^ 53) :=
    le_trans E1 (mul_le_mul_of_nonneg_right hd hε.le)
  have E1c := abs_le.mp E1b
  have hs : |toDouble (ha - ca) + 1 / 2| ≤ 2 := by
    rw [abs_le]; constructor <;> linarith [E1c.1, E1c.2]
  have E2 := abs_toDouble_sub_le (toDouble (ha - ca) + 1 / 2)
  rw [conv] at E2
  have E2b : |toDouble (toDouble (ha - ca) + 1 / 2) - (toDouble (ha - ca) + 1 / 2)| ≤
      2 * (1 / 2 ^ 53) :=
    le_trans E2 (mul_le_mul_of_nonneg_right hs hε.le)
  have E2c := abs_le.mp E2b
  have hs1 : |toDouble (toDouble (ha - ca) + 1 / 2) - (ha - ca + 1 / 2)| ≤
      13 / 4 * (1 / 2 ^ 53) := by
    rw [abs_le]; constructor <;> linarith [E1c.1, E1c.2, E2c.1, E2c.2]
  have key : ∀ w : ℚ, |w| ≤ 1 →
      |w| - 1 / 2 ^ 53 ≤ |toDouble w| ∧ |toDouble w| ≤ |w| + 1 / 2 ^ 53 := by
    intro w hw
    have E3 := abs_toDouble_sub_le w
    rw [conv] at E3
    have E3b : |toDouble w - w| ≤ 1 / 2 ^ 53 :=
      le_trans E3 (by
        have := mul_le_mul_of_nonneg_right hw hε.le
        linarith)
    have t := abs_abs_sub_abs_le_abs_sub (toDouble w) w
    have t2 := abs_le.mp (le_trans t E3b)
    constructor <;> linarith [t2.1, t2.2]
  have five : (5 : ℚ) / 2 ^ 53 = 5 * (1 / 2 ^ 53) := by ring
  rw [five]
  exact laneValue_core ha ca _ (1 / 2 ^ 53) hε hε1 (by linarith) hs1 key

/-! ## The lane expression at three exact ties -/

theorem tie19_center : toDouble (19 / 255) = tieAngle19 := by
  unfold tieAngle19
  have hx : |(19 : ℚ) / 255| = 19 / 255 := abs_of_pos (by norm_num)
  rw [toDouble_eq (19 / 255) (-4) 5368997202826003 (by rw [hx]; norm_num) (by rw [hx]; norm_num)
    (by norm_num [roundHalfEven])]
  norm_num

theorem tie19_value : laneValueDouble 1 tieAngle19 = 335562325176625 / 2 ^ 52 := by
  unfold laneValueDouble tieAngle19
  have a1 : |(1 : ℚ) - 5368997202826003 / 2 ^ 56| = 1 - 5368997202826003 / 2 ^ 56 := abs_of_pos (by norm_num)
  have h1 : toDouble (1 - 5368997202826003 / 2 ^ 56) = 4168037302193871 / 2 ^ 52 := by
    rw [toDouble_eq (1 - 5368997202826003 / 2 ^ 56) (-1) 8336074604387742 (by rw [a1]; norm_num) (by rw [a1]; norm_num)
      (by norm_num [roundHalfEven])]
    norm_num
  have a2 : |(4168037302193871 / 2 ^ 52 : ℚ) + 1 / 2| = 4168037302193871 / 2 ^ 52 + 1 / 2 := abs_of_pos (by norm_num)
  have h2 : toDouble (4168037302193871 / 2 ^ 52 + 1 / 2) = 6419837115879119 / 2 ^ 52 := by
    rw [toDouble_eq (4168037302193871 / 2 ^ 52 + 1 / 2) (0) 6419837115879119 (by rw [a2]; norm_num)
      (by rw [a2]; norm_num) (by norm_num [roundHalfEven])]
    norm_num
  have h3 : jsRem (6419837115879119 / 2 ^ 52) 1 = 1916237488508623 / 2 ^ 52 := by
    rw [jsRem_one_of_nonneg _ (by norm_num), Int.fract_eq_iff]
    exact ⟨by norm_num, by norm_num, 1, by norm_num⟩
  have a4 : |(1916237488508623 / 2 ^ 52 : ℚ) - 1 / 2| = -(1916237488508623 / 2 ^ 52 - 1 / 2) := abs_of_neg (by norm_num)
  have h4 : toDouble (1916237488508623 / 2 ^ 52 - 1 / 2) = -(335562325176625 / 2 ^ 52) := by
    rw [toDouble_eq (1916237488508623 / 2 ^ 52 - 1 / 2) (-4) (-5368997202826000) (by rw [a4]; norm_num)
      (by rw [a4]; norm_num) (by norm_num [roundHalfEven])]
    norm_num
  rw [h1, h2, h3, h4, abs_neg]
  exact abs_of_pos (by norm_num)

theorem tie20_center : toDouble (20 / 255) = tieAngle20 := by
  unfold tieAngle20
  have hx : |(20 : ℚ) / 255| = 20 / 255 := abs_of_pos (by norm_num)
  rw [toDouble_eq (20 / 255) (-4) 5651576002974740 (by rw [hx]; norm_num) (by rw [hx]; norm_num)
    (by norm_num [roundHalfEven])]
  norm_num

theorem tie20_value : laneValueDouble 1 tieAngle20 = 353223500185921 / 2 ^ 52 := by
  unfold laneValueDouble tieAngle20
  have a1 : |(1 : ℚ) - 1412894000743685 / 2 ^ 54| = 1 - 1412894000743685 / 2 ^ 54 := abs_of_pos (by norm_num)
  have h1 : toDouble (1 - 1412894000743685 / 2 ^ 54) = 4150376127184575 / 2 ^ 52 := by
    rw [toDouble_eq (1 - 1412894000743685 / 2 ^ 54) (-1) 8300752254369150 (by rw [a1]; norm_num) (by rw [a1]; norm_num)
      (by norm_num [roundHalfEven])]
    norm_num
  have a2 : |(4150376127184575 / 2 ^ 52 : ℚ) + 1 / 2| = 4150376127184575 / 2 ^ 52 + 1 / 2 := abs_of_pos (by norm_num)
  have h2 : toDouble (4150376127184575 / 2 ^ 52 + 1 / 2) = 6402175940869823 / 2 ^ 52 := by
    rw [toDouble_eq (4150376127184575 / 2 ^ 52 + 1 / 2) (0) 6402175940869823 (by rw [a2]; norm_num)
      (by rw [a2]; norm_num) (by norm_num [roundHalfEven])]
    norm_num
  have h3 : jsRem (6402175940869823 / 2 ^ 52) 1 = 1898576313499327 / 2 ^ 52 := by
    rw [jsRem_one_of_nonneg _ (by norm_num), Int.fract_eq_iff]
    exact ⟨by norm_num, by norm_num, 1, by norm_num⟩
  have a4 : |(1898576313499327 / 2 ^ 52 : ℚ) - 1 / 2| = -(1898576313499327 / 2 ^ 52 - 1 / 2) := abs_of_neg (by norm_num)
  have h4 : toDouble (1898576313499327 / 2 ^ 52 - 1 / 2) = -(353223500185921 / 2 ^ 52) := by
    rw [toDouble_eq (1898576313499327 / 2 ^ 52 - 1 / 2) (-4) (-5651576002974736) (by rw [a4]; norm_num)
      (by rw [a4]; norm_num) (by norm_num [roundHalfEven])]
    norm_num
  rw [h1, h2, h3, h4, abs_neg]
  exact abs_of_pos (by norm_num)

theorem tie33_center : toDouble (33 / 255) = tieAngle33 := by
  unfold tieAngle33
  have hx : |(33 : ℚ) / 255| = 33 / 255 := abs_of_pos (by norm_num)
  rw [toDouble_eq (33 / 255) (-3) 4662550202454161 (by rw [hx]; norm_num) (by rw [hx]; norm_num)
    (by norm_num [roundHalfEven])]
  norm_num

theorem tie33_value : laneValueDouble 1 tieAngle33 = 291409387653385 / 2 ^ 51 := by
  unfold laneValueDouble tieAngle33
  have a1 : |(1 : ℚ) - 4662550202454161 / 2 ^ 55| = 1 - 4662550202454161 / 2 ^ 55 := abs_of_pos (by norm_num)
  have h1 : toDouble (1 - 4662550202454161 / 2 ^ 55) = 1960390426031863 / 2 ^ 51 := by
    rw [toDouble_eq (1 - 4662550202454161 / 2 ^ 55) (-1) 7841561704127452 (by rw [a1]; norm_num) (by rw [a1]; norm_num)
      (by norm_num [roundHalfEven])]
    norm_num
  have a2 : |(1960390426031863 / 2 ^ 51 : ℚ) + 1 / 2| = 1960390426031863 / 2 ^ 51 + 1 / 2 := abs_of_pos (by norm_num)
  have h2 : toDouble (1960390426031863 / 2 ^ 51 + 1 / 2) = 3086290332874487 / 2 ^ 51 := by
    rw [toDouble_eq (1960390426031863 / 2 ^ 51 + 1 / 2) (0) 6172580665748974 (by rw [a2]; norm_num)
      (by rw [a2]; norm_num) (by norm_num [roundHalfEven])]
    norm_num
  have h3 : jsRem (3086290332874487 / 2 ^ 51) 1 = 834490519189239 / 2 ^ 51 := by
    rw [jsRem_one_of_nonneg _ (by norm_num), Int.fract_eq_iff]
    exact ⟨by norm_num, by norm_num, 1, by norm_num⟩
  have a4 : |(834490519189239 / 2 ^ 51 : ℚ) - 1 / 2| = -(834490519189239 / 2 ^ 51 - 1 / 2) := abs_of_neg (by norm_num)
  have h4 : toDouble (834490519189239 / 2 ^ 51 - 1 / 2) = -(291409387653385 / 2 ^ 51) := by
    rw [toDouble_eq (834490519189239 / 2 ^ 51 - 1 / 2) (-3) (-4662550202454160) (by rw [a4]; norm_num)
      (by rw [a4]; norm_num) (by norm_num [roundHalfEven])]
    norm_num
  rw [h1, h2, h3, h4, abs_neg]
  exact abs_of_pos (by norm_num)

/-! ## The lane test in doubles against the distance on the circle -/

theorem handAngleDouble_range (uvy : ℚ) (hu0 : 0 ≤ uvy) (hu1 : uvy ≤ 1) :
    1 / 4 ≤ handAngleDouble uvy ∧ handAngleDouble uvy ≤ 5 / 4 := by
  unfold handAngleDouble
  exact toDouble_mem_range _ (by linarith) (by linarith)

theorem handAngleDouble_three_quarters : handAngleDouble (3 / 4) = 1 := by
  unfold handAngleDouble
  rw [show (3 / 4 : ℚ) + 1 / 4 = 1 by norm_num, toDouble_one]

theorem wrappedDistance_one_left (c : ℚ) (h0 : 0 < c) (h1 : c ≤ 1 / 2) :
    wrappedDistance 1 c = c := by
  unfold wrappedDistance
  rw [Int.fract_eq_self.mpr ⟨by linarith, by linarith⟩, min_eq_right (by linarith)]
  ring

/-- A hand angle equal to the centre angle, or one whole turn above it, gives the
value 0 in doubles: every step of the expression is exact there. -/
theorem laneValueDouble_whole_turn (ca : ℚ) (k : ℤ) (hk : k = 0 ∨ k = 1) :
    laneValueDouble (ca + (k : ℚ)) ca = 0 := by
  unfold laneValueDouble
  have hr : jsRem (1 / 2) 1 = 1 / 2 := by
    rw [jsRem_one_of_nonneg _ (by norm_num), Int.fract_eq_self]
    constructor <;> norm_num
  have hr2 : jsRem (3 / 2) 1 = 1 / 2 := by
    rw [jsRem_one_of_nonneg _ (by norm_num), Int.fract_eq_iff]
    exact ⟨by norm_num, by norm_num, 1, by norm_num⟩
  rcases hk with rfl | rfl
  · rw [show ca + ((0 : ℤ) : ℚ) - ca = 0 by push_cast; ring, toDouble_zero,
      show (0 : ℚ) + 1 / 2 = 1 / 2 by norm_num, toDouble_half, hr, sub_self, toDouble_zero,
      abs_zero]
  · rw [show ca + ((1 : ℤ) : ℚ) - ca = 1 by push_cast; ring, toDouble_one,
      show (1 : ℚ) + 1 / 2 = 3 / 2 by norm_num, toDouble_three_halves, hr2, sub_self,
      toDouble_zero, abs_zero]

/-- Away from a tie the double comparison and the exact comparison agree: with the
dividend of the remainder not negative and the distance on the circle at least `2^-50`
away from the half width. -/
theorem laneTestDouble_iff_of_margin (ha ca hw : ℚ) (h0 : 1 / 4 ≤ ha) (h1 : ha ≤ 5 / 4)
    (hc0 : 0 ≤ ca) (hc1 : ca ≤ 1) (hx : 0 ≤ ha - ca + 1 / 2)
    (hm : 1 / 2 ^ 50 ≤ |wrappedDistance ha ca - hw|) :
    laneTestDouble ha ca hw = true ↔ wrappedDistance ha ca < hw := by
  obtain ⟨lo, hi⟩ := laneValueDouble_bounds ha ca h0 h1 hc0 hc1
  have hi2 := hi hx
  have e : (1 : ℚ) / 2 ^ 50 = 8 / 2 ^ 53 := by norm_num
  have hp : (0 : ℚ) < 1 / 2 ^ 53 := by norm_num
  have c5 : (5 : ℚ) / 2 ^ 53 = 5 * (1 / 2 ^ 53) := by ring
  have c8 : (8 : ℚ) / 2 ^ 53 = 8 * (1 / 2 ^ 53) := by ring
  rw [e, c8] at hm
  rw [c5] at lo hi2
  unfold laneTestDouble
  rw [decide_eq_true_iff]
  rcases le_or_lt 0 (wrappedDistance ha ca - hw) with hs | hs
  · rw [abs_of_nonneg hs] at hm
    constructor
    · intro h; linarith
    · intro h; linarith
  · rw [abs_of_neg hs] at hm
    constructor
    · intro _; linarith
    · intro _; linarith

/-- With the dividend of the remainder negative, a centre angle of at most 15/16 and a
half width of at most 3/10, the double comparison fails and the distance on the circle
is not below the half width either. -/
theorem laneTestDouble_negative_dividend (ha ca hw : ℚ) (h0 : 1 / 4 ≤ ha) (h1 : ha ≤ 5 / 4)
    (hc0 : 0 ≤ ca) (hc1 : ca ≤ 15 / 16) (hw1 : hw ≤ 3 / 10) (hx : ha - ca + 1 / 2 < 0) :
    laneTestDouble ha ca hw = false ∧ ¬ (wrappedDistance ha ca < hw) := by
  obtain ⟨lo, _⟩ := laneValueDouble_bounds ha ca h0 h1 hc0 (by linarith)
  have hf : Int.fract (ha - ca) = ha - ca + 1 := by
    rw [Int.fract_eq_iff]
    refine ⟨by linarith, by linarith, -1, ?_⟩
    push_cast
    ring
  have hwd : wrappedDistance ha ca = ha - ca + 1 := by
    unfold wrappedDistance
    rw [hf, min_eq_left (by linarith)]
  have hp : (5 : ℚ) / 2 ^ 53 ≤ 1 / 100 := by norm_num
  rw [hwd] at lo ⊢
  constructor
  · unfold laneTestDouble
    exact decide_eq_false (by rw [not_lt]; linarith)
  · rw [not_lt]; linarith

theorem handAngleDouble_zero : handAngleDouble 0 = 1 / 4 := by
  unfold handAngleDouble
  rw [zero_add, toDouble_eq (1 / 4) (-2) (2 ^ 52) (by norm_num [abs_of_pos])
    (by norm_num [abs_of_pos]) (by norm_num [roundHalfEven])]
  norm_num

theorem wrappedDistance_self (a : ℚ) : wrappedDistance a a = 0 := by
  unfold wrappedDistance
  rw [sub_self, Int.fract_zero]
  norm_num

/-! ## C3: the safe-lane test -/

/-- Claim C3, counterexample: a hit at ring angle `uv.y = 3/4` (hand angle 1) over a
lane whose centre byte and width byte are both 20, read at a bucket boundary. The
distance on the circle between the hand angle and the centre angle equals the half
width, so it is not strictly less; yet the expression of the code, evaluated in
doubles, is 353223500185921 / 2^52, four units in the last place below the half width,
and the hand is judged inside. -/
theorem c3_tie_example :
    toDouble (20 / 255) = tieAngle20 ∧ handAngleDouble (3 / 4) = 1 ∧
      wrappedDistance (handAngleDouble (3 / 4)) tieAngle20 = tieAngle20 ∧
      laneValueDouble (handAngleDouble (3 / 4)) tieAngle20 = 353223500185921 / 2 ^ 52 ∧
      laneTestDouble (handAngleDouble (3 / 4)) tieAngle20 tieAngle20 = true := by
  refine ⟨tie20_center, handAngleDouble_three_quarters, ?_, ?_, ?_⟩
  · rw [handAngleDouble_three_quarters]
    exact wrappedDistance_one_left _ (by norm_num [tieAngle20]) (by norm_num [tieAngle20])
  · rw [handAngleDouble_three_quarters]
    exact tie20_value
  · rw [handAngleDouble_three_quarters]
    unfold laneTestDouble
    rw [tie20_value]
    exact decide_eq_true (by norm_num [tieAngle20])

/-- Claim C3, as amended: for every hit with `uv.y` in `[0, 1]` (`handAngle` the double
`uv.y + 1/4`), every sampled `centerAngle` and `halfWidth` with `centerAngle` in
`[0, 1]`, where either `centerAngle ≤ handAngle + 1/2` (the dividend of the remainder
is not negative) or `centerAngle ≤ 15/16` and `halfWidth ≤ 3/10` (which holds for every
byte the quantizer writes), and where `halfWidth` differs from the distance on the
circle between `handAngle` and `centerAngle` by at least `2^-50`, the test that decides
`inside` for an active hand outside the grace window is true if and only if that
distance is strictly less than `halfWidth`. -/
theorem c3_lane_test_away_from_ties (uvy centerAngle halfWidth : ℚ)
    (hu0 : 0 ≤ uvy) (hu1 : uvy ≤ 1) (hc0 : 0 ≤ centerAngle) (hc1 : centerAngle ≤ 1)
    (hx : centerAngle ≤ handAngleDouble uvy + 1 / 2 ∨
      (centerAngle ≤ 15 / 16 ∧ halfWidth ≤ 3 / 10))
    (hm : 1 / 2 ^ 50 ≤ |wrappedDistance (handAngleDouble uvy) centerAngle - halfWidth|) :
    laneTestDouble (handAngleDouble uvy) centerAngle halfWidth = true ↔
      wrappedDistance (handAngleDouble uvy) centerAngle < halfWidth := by
  obtain ⟨h0, h1⟩ := handAngleDouble_range uvy hu0 hu1
  rcases le_or_lt 0 (handAngleDouble uvy - centerAngle + 1 / 2) with hs | hs
  · exact laneTestDouble_iff_of_margin _ _ _ h0 h1 hc0 hc1 hs hm
  · rcases hx with hx | ⟨hx1, hx2⟩
    · exact absurd hx (by rw [not_le]; linarith)
    · obtain ⟨a, b⟩ := laneTestDouble_negative_dividend _ _ _ h0 h1 hc0 hx1 hx2 hs
      constructor
      · intro h
        rw [a] at h
        exact absurd h (by simp)
      · intro h
        exact absurd h b

/-- Claim C3, the amended statement at a concrete hit: ring angle 0, centre angle 1/4,
half width 1/8. -/
theorem c3_lane_test_away_from_ties_witness :
    (1 / 4 : ℚ) ≤ handAngleDouble 0 + 1 / 2 ∧
      (laneTestDouble (handAngleDouble 0) (1 / 4) (1 / 8) = true ↔
        wrappedDistance (handAngleDouble 0) (1 / 4) < 1 / 8) :=
  ⟨by rw [handAngleDouble_zero]; norm_num,
    c3_lane_test_away_from_ties 0 (1 / 4) (1 / 8) (by norm_num) (by norm_num) (by norm_num)
      (by norm_num) (Or.inl (by rw [handAngleDouble_zero]; norm_num))
      (by rw [handAngleDouble_zero, wrappedDistance_self]; norm_num [abs_of_neg])⟩

/-! ## C13: symmetry of the safe-lane test -/

/-- Claim C13, counterexample: a hit at ring angle `uv.y = 3/4` (hand angle 1) over a
lane whose centre byte and width byte are both 19. The distance on the circle is
exactly the half width, yet the expression of the code, evaluated in doubles, is
335562325176625 / 2^52, below the half width 5368997202826003 / 2^56, and the hand is
judged safe. -/
theorem c13_tie_example :
    toDouble (19 / 255) = tieAngle19 ∧ handAngleDouble (3 / 4) = 1 ∧
      wrappedDistance (handAngleDouble (3 / 4)) tieAngle19 = tieAngle19 ∧
      laneValueDouble (handAngleDouble (3 / 4)) tieAngle19 = 335562325176625 / 2 ^ 52 ∧
      laneTestDouble (handAngleDouble (3 / 4)) tieAngle19 tieAngle19 = true := by
  refine ⟨tie19_center, handAngleDouble_three_quarters, ?_, ?_, ?_⟩
  · rw [handAngleDouble_three_quarters]
    exact wrappedDistance_one_left _ (by norm_num [tieAngle19]) (by norm_num [tieAngle19])
  · rw [handAngleDouble_three_quarters]
    exact tie19_value
  · rw [handAngleDouble_three_quarters]
    unfold laneTestDouble
    rw [tie19_value]
    exact decide_eq_true (by norm_num [tieAngle19])

/-- Claim C13, as amended: for every hit with `uv.y` in `[0, 1]` (`handAngle` the
double `uv.y + 1/4`), every `centerAngle` in `[0, 1]` and every `halfWidth > 0`, a hand
whose `handAngle` equals `centerAngle`, or differs from it by a whole number `k` of
turns, is judged safe; and a hand whose distance on the circle from `centerAngle` is
at least `halfWidth + 2^-50` is judged unsafe. At a distance exactly equal to
`halfWidth` the rounding of the expression decides. -/
theorem c13_symmetry_in_doubles (uvy centerAngle halfWidth : ℚ) (k : ℤ)
    (hu0 : 0 ≤ uvy) (hu1 : uvy ≤ 1) (hc0 : 0 ≤ centerAngle) (hc1 : centerAngle ≤ 1)
    (hw : 0 < halfWidth) :
    (handAngleDouble uvy = centerAngle + (k : ℚ) →
        laneTestDouble (handAngleDouble uvy) centerAngle halfWidth = true) ∧
      (halfWidth + 1 / 2 ^ 50 ≤ wrappedDistance (handAngleDouble uvy) centerAngle →
        laneTestDouble (handAngleDouble uvy) centerAngle halfWidth = false) := by
  obtain ⟨h0, h1⟩ := handAngleDouble_range uvy hu0 hu1
  constructor
  · intro hk
    have k0 : (-1 : ℚ) < (k : ℚ) := by linarith
    have k1 : (k : ℚ) < 2 := by linarith
    have k0z : (-1 : ℤ) < k := by exact_mod_cast k0
    have k1z : k < 2 := by exact_mod_cast k1
    have hk01 : k = 0 ∨ k = 1 := by omega
    rw [hk]
    unfold laneTestDouble
    rw [laneValueDouble_whole_turn centerAngle k hk01]
    exact decide_eq_true hw
  · intro hd
    obtain ⟨lo, _⟩ := laneValueDouble_bounds (handAngleDouble uvy) centerAngle h0 h1 hc0 hc1
    have e : (1 : ℚ) / 2 ^ 50 = 8 * (1 / 2 ^ 53) := by norm_num
    have hp : (0 : ℚ) < 1 / 2 ^ 53 := by norm_num
    have c5 : (5 : ℚ) / 2 ^ 53 = 5 * (1 / 2 ^ 53) := by ring
    rw [e] at hd
    rw [c5] at lo
    unfold laneTestDouble
    exact decide_eq_false (by rw [not_lt]; linarith)

/-- Claim C13, the amended statement at a concrete hand: ring angle 3/4 (hand angle 1)
against a lane centred at 1 with half width 1/10. -/
theorem c13_symmetry_in_doubles_witness :
    handAngleDouble (3 / 4) = 1 + ((0 : ℤ) : ℚ) ∧
      laneTestDouble (handAngleDouble (3 / 4)) 1 (1 / 10) = true :=
  ⟨by rw [handAngleDouble_three_quarters]; norm_num,
    (c13_symmetry_in_doubles (3 / 4) 1 (1 / 10) 0 (by norm_num) (by norm_num) (by norm_num)
      (by norm_num) (by norm_num)).1 (by rw [handAngleDouble_three_quarters]; norm_num)⟩

/-! ## C16: the remainder-based test on fields the builder can produce -/

/-- Claim C16, counterexample: inside the ranges of the claim, a hit at ring angle
`uv.y = 3/4` (hand angle 1) over a lane whose centre byte and width byte are both 33.
The expression of the code, evaluated in doubles, is true, while the distance on the
circle equals the half width and so is not less than it. -/
theorem c16_tie_example :
    toDouble (33 / 255) = tieAngle33 ∧ 19 / 255 ≤ tieAngle33 ∧ tieAngle33 ≤ 64 / 255 ∧
      laneTestDouble (handAngleDouble (3 / 4)) tieAngle33 tieAngle33 = true ∧
      ¬ (wrappedDistance (handAngleDouble (3 / 4)) tieAngle33 < tieAngle33) := by
  refine ⟨tie33_center, by norm_num [tieAngle33], by norm_num [tieAngle33], ?_, ?_⟩
  · rw [handAngleDouble_three_quarters]
    unfold laneTestDouble
    rw [tie33_value]
    exact decide_eq_true (by norm_num [tieAngle33])
  · rw [handAngleDouble_three_quarters,
      wrappedDistance_one_left _ (by norm_num [tieAngle33]) (by norm_num [tieAngle33])]
    exact lt_irrefl _

/-- Claim C16, as amended: for every hit angle `uv.y` in `[0, 1]` (`handAngle` the
double `uv.y + 1/4`), every sampled `centerAngle` in `[0, 15/16]` and every `halfWidth`
of at most 3/10 (ranges that contain `[19/255, 237/255]` and `[0, 64/255]` and the
doubles nearest to their ends), if `halfWidth` differs from the distance on the circle
between `handAngle` and `centerAngle` by at least `2^-50`, then the expression
`abs((handAngle - centerAngle + 0.5) % 1.0 - 0.5) < halfWidth` of the code, with the
sign-of-dividend remainder and evaluated in doubles, is true exactly when that
distance is less than `halfWidth`. -/
theorem c16_builder_range_away_from_ties (uvy centerAngle halfWidth : ℚ)
    (hu0 : 0 ≤ uvy) (hu1 : uvy ≤ 1) (hc0 : 0 ≤ centerAngle) (hc1 : centerAngle ≤ 15 / 16)
    (hw1 : halfWidth ≤ 3 / 10)
    (hm : 1 / 2 ^ 50 ≤ |wrappedDistance (handAngleDouble uvy) centerAngle - halfWidth|) :
    laneTestDouble (handAngleDouble uvy) centerAngle halfWidth = true ↔
      wrappedDistance (handAngleDouble uvy) centerAngle < halfWidth := by
  obtain ⟨h0, h1⟩ := handAngleDouble_range uvy hu0 hu1
  rcases le_or_lt 0 (handAngleDouble uvy - centerAngle + 1 / 2) with hx | hx
  · exact laneTestDouble_iff_of_margin _ _ _ h0 h1 hc0 (by linarith) hx hm
  · obtain ⟨a, b⟩ := laneTestDouble_negative_dividend _ _ _ h0 h1 hc0 hc1 hw1 hx
    constructor
    · intro h
      rw [a] at h
      exact absurd h (by simp)
    · intro h
      exact absurd h b

/-- Claim C16, the amended statement at a concrete hit: ring angle 0, centre angle 1/4,
half width 1/8. -/
theorem c16_builder_range_away_from_ties_witness :
    (1 : ℚ) / 2 ^ 50 ≤ |wrappedDistance (handAngleDouble 0) (1 / 4) - 1 / 8| ∧
      (laneTestDouble (handAngleDouble 0) (1 / 4) (1 / 8) = true ↔
        wrappedDistance (handAngleDouble 0) (1 / 4) < 1 / 8) :=
  ⟨by rw [handAngleDouble_zero, wrappedDistance_self]; norm_num [abs_of_neg],
    c16_builder_range_away_from_ties 0 (1 / 4) (1 / 8) (by norm_num) (by norm_num)
      (by norm_num) (by norm_num) (by norm_num)
      (by rw [handAngleDouble_zero, wrappedDistance_self]; norm_num [abs_of_neg])⟩

end ServerRider
